import Mathlib

/-!
Verification development for the Email Drafter repository.

This file gives a shallow embedding, in Lean 4, of the core pieces of the
repository that the specification covers: the durable job scheduler of
`electron/main.ts`, the template merge of `src/utils/templateMerge.ts`
(shipped unnamed in this snapshot), the rate-limit/retry governor
(class `RateLimiter`), the chunked attachment uploader (class
`AttachmentHandler`), and the batch dispatcher (`BatchProcessor` together
with `GraphClientService.createBatchDrafts`).

Modelling conventions:
* JavaScript strings that are inspected character by character (templates,
  contact field values) are `List Char`; opaque identifiers are `String`.
* Timestamps (`Date.now()` values) are `Nat` parameters: every function that
  reads the clock takes the current time as an explicit `now` argument.
* Remote API calls and other I/O are oracles passed in as functions
  (per-message failure oracles, per-batch HTTP response lists); persistence
  (`fs.writeFileSync`) is dropped since reads and writes are wholesale.
* `async` interleaving is modelled sequentially.  The bounded-concurrency
  fan-outs of the dispatcher and uploader only ever mutate entries belonging
  to distinct keys, so the sequential model computes the same final arrays.
* Fallible JavaScript code (`throw`/`catch`) is modelled with `Except`.
* Recursions that consume more than one element per step carry an explicit
  fuel argument (always instantiated with the length of the scanned list) so
  that every definition stays structural and computable by `decide`.
-/

/-! ## Scheduler data model (electron/main.ts) -/

/-- Status values of `SchedulerStatus` in `electron/main.ts`. -/
inductive SchedulerStatus where
  | queued
  | running
  | completed
  | failed
  | paused
  | cancelled
deriving DecidableEq, Repr

/-- The `SchedulerJob` record of `electron/main.ts`.  `lastResult` is the pair
of `succeededMessageIds` and `failedMessageIds` (message id with error). -/
structure SchedulerJob where
  id : String
  campaignId : String
  messageIds : List String
  runAt : Nat
  folderName : String
  categoryName : Option String
  attempts : Nat
  maxAttempts : Nat
  status : SchedulerStatus
  error : Option String
  lastResult : Option (List String × List (String × String))
  createdAt : Nat
  updatedAt : Nat
deriving DecidableEq, Repr

/-- `updateSchedulerJob`: applies an updater to a job and stamps `updatedAt`
with the current time (the `Map.set`/persist part is wholesale and dropped). -/
def updateSchedulerJob (now : Nat) (updater : SchedulerJob → SchedulerJob)
    (job : SchedulerJob) : SchedulerJob :=
  let next := updater job
  { next with updatedAt := now }

/-- The `campaign:scheduler-cancel` IPC handler: sets `status` to `cancelled`
with no guard on the current status. -/
def schedulerCancel (now : Nat) (job : SchedulerJob) : SchedulerJob :=
  updateSchedulerJob now (fun current => { current with status := .cancelled }) job

/-- The `campaign:scheduler-pause` IPC handler: `queued`/`running` become
`paused`, any other status is left unchanged. -/
def schedulerPause (now : Nat) (job : SchedulerJob) : SchedulerJob :=
  updateSchedulerJob now
    (fun current =>
      { current with
        status :=
          if current.status = .queued ∨ current.status = .running then .paused
          else current.status })
    job

/-- The `campaign:scheduler-resume` IPC handler: a `paused` job becomes
`queued`; independently of the status test, `runAt` is bumped to `now + 1000`
whenever it lies strictly in the past. -/
def schedulerResume (now : Nat) (job : SchedulerJob) : SchedulerJob :=
  updateSchedulerJob now
    (fun current =>
      { current with
        status := if current.status = .paused then .queued else current.status,
        runAt := if current.runAt < now then now + 1000 else current.runAt })
    job

/-- Insertion-order deduplication, the semantics of
`Array.from(new Set(xs))` used by the enqueue handler. -/
def dedupKeepFirst (xs : List String) : List String :=
  xs.foldl (fun acc x => if x ∈ acc then acc else acc ++ [x]) []

/-- Payload of the `campaign:scheduler-enqueue` IPC handler. -/
structure EnqueuePayload where
  campaignId : String
  messageIds : List String
  runAt : Nat
  folderName : String
  categoryName : Option String
  maxAttempts : Option Nat
deriving Repr

/-- The `campaign:scheduler-enqueue` IPC handler.  `jobId` abstracts the
generated random id and `defaultFolderName` the locale-formatted date used
when `folderName` is falsy.  `payload.runAt || now` and
`payload.maxAttempts || 3` translate the JavaScript falsiness of `0`. -/
def schedulerEnqueue (now : Nat) (jobId : String) (defaultFolderName : String)
    (payload : EnqueuePayload) : SchedulerJob :=
  { id := jobId
    campaignId := payload.campaignId
    messageIds := dedupKeepFirst (payload.messageIds.filter (fun m => m ≠ ""))
    runAt := Nat.max (if payload.runAt = 0 then now else payload.runAt) now
    folderName := if payload.folderName = "" then defaultFolderName else payload.folderName
    categoryName := payload.categoryName
    attempts := 0
    maxAttempts :=
      Nat.max 1 (match payload.maxAttempts with | none => 3 | some 0 => 3 | some n => n)
    status := .queued
    error := none
    lastResult := none
    createdAt := now
    updatedAt := now }

/-- The message loop of `runSchedulerJob`: walks `messageIds` in order and
sorts each id into `succeededMessageIds` or `failedMessageIds` according to
the per-message outcome oracle `msgFails` (`none` = the category patch and the
move both succeeded, `some e` = the Graph call for this id threw `e`). -/
def runPartition (msgFails : String → Option String) :
    List String → List String × List (String × String)
  | [] => ([], [])
  | m :: ms =>
    let rest := runPartition msgFails ms
    match msgFails m with
    | none => (m :: rest.1, rest.2)
    | some e => (rest.1, (m, e) :: rest.2)

/-- The tail of `runSchedulerJob`: computes `hasFailures`, `canRetry`,
`nextStatus` and `nextRunAt` from the partition of the job's `messageIds`, and
applies the final `updateSchedulerJob`. -/
def runSchedulerJobUpdate (now : Nat) (msgFails : String → Option String)
    (job : SchedulerJob) : SchedulerJob :=
  let p := runPartition msgFails job.messageIds
  let hasFailures : Bool := !p.2.isEmpty
  let canRetry : Bool := hasFailures && decide (job.attempts + 1 < job.maxAttempts)
  let nextStatus : SchedulerStatus :=
    if hasFailures then (if canRetry then .queued else .failed) else .completed
  let nextRunAt : Nat :=
    if canRetry then now + Nat.min 600000 (2 ^ (job.attempts + 1) * 30000) else job.runAt
  updateSchedulerJob now
    (fun current =>
      { current with
        attempts := current.attempts + 1
        runAt := nextRunAt
        status := nextStatus
        error :=
          if hasFailures then some (toString p.2.length ++ " message(s) failed auto-sort")
          else none
        lastResult := some p })
    job

/-- The `catch` branch of the poll loop in `startScheduler`: a run that threw
as a whole increments `attempts` and either requeues with backoff or fails. -/
def tickCatchUpdate (now : Nat) (msg : String) (job : SchedulerJob) : SchedulerJob :=
  updateSchedulerJob now
    (fun current =>
      let canRetry := current.attempts + 1 < current.maxAttempts
      { current with
        attempts := current.attempts + 1
        status := if canRetry then .queued else .failed
        runAt :=
          if canRetry then now + Nat.min 600000 (2 ^ (current.attempts + 1) * 30000)
          else current.runAt
        error := some msg })
    job

/-- Outcome of one execution of `runSchedulerJob` as seen by the poll loop:
either the run finished and each message id succeeded or failed individually
(`perMessage`), or the whole run threw before or during the loop
(`thrown`, e.g. missing tokens or folder resolution failure). -/
inductive RunOutcome where
  | perMessage (msgFails : String → Option String)
  | thrown (msg : String)

/-- One poll tick of `startScheduler`, as it affects one job: its time and the
outcome `runSchedulerJob` would have on that tick. -/
structure TickInput where
  now : Nat
  outcome : RunOutcome

/-- One `setInterval` tick of `startScheduler` restricted to a single job: a
`queued` job whose `runAt` has passed is marked `running` and then run; any
other job is untouched.  The returned `Bool` records whether the job ran. -/
def pollTickJob (t : TickInput) (job : SchedulerJob) : SchedulerJob × Bool :=
  if job.status = .queued ∧ job.runAt ≤ t.now then
    let j1 := updateSchedulerJob t.now
      (fun current => { current with status := .running, error := none }) job
    match t.outcome with
    | .perMessage f => (runSchedulerJobUpdate t.now f j1, true)
    | .thrown msg => (tickCatchUpdate t.now msg j1, true)
  else (job, false)

/-- A sequence of poll ticks applied to one job, counting how many of them
actually ran the job. -/
def runTrace (job : SchedulerJob) : List TickInput → SchedulerJob × Nat
  | [] => (job, 0)
  | t :: ts =>
    let r := pollTickJob t job
    let rest := runTrace r.1 ts
    (rest.1, rest.2 + (if r.2 then 1 else 0))

/-- `Map.set` on the in-memory job table keyed by `id` (later writes win). -/
def setJob (jobs : List SchedulerJob) (job : SchedulerJob) : List SchedulerJob :=
  if jobs.any (fun j => j.id = job.id) then
    jobs.map (fun j => if j.id = job.id then job else j)
  else jobs ++ [job]

/-- `loadSchedulerJobs`: replays the persisted array into the job table.  An
entry is kept when `job?.id` is truthy (non-empty) and `messageIds` is an
array (always true of the typed record); the job is inserted exactly as
persisted — in particular its `status` field is not reconciled. -/
def loadSchedulerJobs (persisted : List SchedulerJob) : List SchedulerJob :=
  persisted.foldl (fun acc j => if j.id ≠ "" then setJob acc j else acc) []

/-! ## Template merge (src/utils/templateMerge.ts) -/

/-- Predicate used in the side conditions of the merge lemmas: the string
contains no brace character.  Field names produced by the CSV importer are
always brace-free; the counterexamples below show what the merge does when a
field name smuggles braces in. -/
def braceFree (l : List Char) : Bool :=
  l.all (fun ch => ch != '{' && ch != '}')

/-- The placeholder written for a field name in a template, two opening braces
then the name then two closing braces — the literal string the dynamically
built regular expression of `mergeTemplate` matches. -/
def placeholder (key : List Char) : List Char :=
  '{' :: '{' :: (key ++ ['}', '}'])

/-- Global replacement of the literal pattern `pat` by `rep`, scanning left to
right and resuming after each match — the semantics of
`String.prototype.replace` with a global regex matching the literal `pat`.
The dynamically built pattern of `mergeTemplate` is treated as a literal
string; this is exact for every key free of regex metacharacters, and braces
inside a key (as in the counterexamples below) are also literal in a
JavaScript regex.
The fuel argument makes the recursion structural; `replaceAll` instantiates it
with the length of the scanned string, which one step of the scanner always
shrinks. -/
def replaceAllGo (pat rep : List Char) : Nat → List Char → List Char
  | 0, s => s
  | fuel + 1, s =>
    if pat.isPrefixOf s && !pat.isEmpty then
      rep ++ replaceAllGo pat rep fuel (s.drop pat.length)
    else
      match s with
      | [] => []
      | c :: rest => c :: replaceAllGo pat rep fuel rest

/-- `merged.replace(regex, value)` for the global literal-pattern regex built
by `mergeTemplate`. -/
def replaceAll (pat rep s : List Char) : List Char :=
  replaceAllGo pat rep s.length s

/-- The field name `id`, which `mergeTemplate` skips. -/
def idKey : List Char := ['i', 'd']

/-- The field name `name`. -/
def nameKey : List Char := ['n', 'a', 'm', 'e']

/-- The field name `email`. -/
def emailKey : List Char := ['e', 'm', 'a', 'i', 'l']

/-- The field name `company`, which the concrete contacts below do not have. -/
def companyKey : List Char := ['c', 'o', 'm', 'p', 'a', 'n', 'y']

/-- `mergeTemplate(template, contact)`: folds over the contact's fields in
object-key order, replacing every `placeholder key` occurrence by the field's
value, except that the `id` field is skipped.  A contact is its field list
(`Object.keys` insertion order); `contact[key] || ''` is the value itself
since the falsy string is already the empty string. -/
def mergeTemplate (template : List Char) (contact : List (List Char × List Char)) :
    List Char :=
  contact.foldl
    (fun merged kv =>
      if kv.1 = idKey then merged else replaceAll (placeholder kv.1) kv.2 merged)
    template

/-- Number of positions of `s` at which the pattern `pat` occurs (counting
overlapping occurrences, so this counts every occurrence of `pat`). -/
def countPos (pat : List Char) : List Char → Nat
  | [] => 0
  | c :: s => (if pat.isPrefixOf (c :: s) then 1 else 0) + countPos pat s

/-! ## Rate-limit governor (class RateLimiter) -/

/-- The shape of the dynamic error objects `RateLimiter` inspects: HTTP
status under `status` or `statusCode`, a string `code`, and a message. -/
structure JsError where
  status : Option Nat
  statusCode : Option Nat
  code : Option String
  message : Option (List Char)
deriving DecidableEq, Repr

/-- Substring test, the semantics of `String.prototype.includes`. -/
def containsSub (sub : List Char) : List Char → Bool
  | [] => sub.isEmpty
  | c :: rest => sub.isPrefixOf (c :: rest) || containsSub sub rest

/-- `error?.message?.includes(sub)` with optional chaining (absent message is
falsy). -/
def optIncludes (m : Option (List Char)) (sub : List Char) : Bool :=
  match m with
  | none => false
  | some s => containsSub sub s

/-- Membership of an optional value in a list (an absent value is never a
member, matching `array.includes(undefined)` against these arrays). -/
def optMem {α : Type} [BEq α] (o : Option α) (l : List α) : Bool :=
  match o with
  | none => false
  | some x => l.contains x

/-- `RateLimiter.isRateLimitError`. -/
def isRateLimitError (e : JsError) : Bool :=
  e.status == some 429 || e.statusCode == some 429 ||
    e.code == some "ThrottledRequest" ||
    optIncludes e.message "rate limit".toList ||
    optIncludes e.message "throttled".toList

/-- `RateLimiter.isRetryableError`. -/
def isRetryableError (e : JsError) : Bool :=
  optMem e.status [500, 502, 503, 504] ||
    optMem e.statusCode [500, 502, 503, 504] ||
    optMem e.code ["ECONNRESET", "ENOTFOUND", "ECONNREFUSED", "ETIMEDOUT"] ||
    optIncludes e.message "timeout".toList ||
    optIncludes e.message "network".toList

/-- The retry loop of `RateLimiter.executeWithRetry`.  `work n` is the outcome
of the `n`-th invocation of the wrapped request; the second component of the
result counts invocations performed.  The source iterates
`attempt = 0 .. maxRetries` and retries a throttled or transient failure only
while `attempt < maxRetries`; here the structural argument is the number of
retries still allowed, `maxRetries - attempt`, so `0` is the last pass.  The
cooldown bookkeeping (`this.retryAfter`) and the backoff/jitter delays only
suspend execution and are dropped; they do not affect the returned value or
the invocation count. -/
def executeWithRetryGo {α : Type} (work : Nat → Except JsError α) :
    Nat → Nat → Except JsError α × Nat
  | attempt, 0 =>
    match work attempt with
    | .ok v => (.ok v, attempt + 1)
    | .error e => (.error e, attempt + 1)
  | attempt, fuel + 1 =>
    match work attempt with
    | .ok v => (.ok v, attempt + 1)
    | .error e =>
      if isRateLimitError e || isRetryableError e then
        executeWithRetryGo work (attempt + 1) fuel
      else (.error e, attempt + 1)

/-- `RateLimiter.executeWithRetry(request, maxRetries)`: up to
`maxRetries + 1` total attempts. -/
def executeWithRetry {α : Type} (work : Nat → Except JsError α) (maxRetries : Nat) :
    Except JsError α × Nat :=
  executeWithRetryGo work 0 maxRetries

/-- A throttling response: HTTP 429. -/
def c6ThrottleError : JsError :=
  { status := some 429, statusCode := none, code := none, message := none }

/-- A work function that is throttled on its first two invocations and
succeeds with 42 from the third on. -/
def c6Work : Nat → Except JsError Nat :=
  fun n => if n < 2 then .error c6ThrottleError else .ok 42

/-! ## Attachment uploader (class AttachmentHandler) -/

/-- One entry of the result array of `attachFileToMultipleDrafts`. -/
structure AttachResult where
  messageId : String
  success : Bool
  error : Option String
deriving DecidableEq, Repr

/-- The slicing loop of `chunkArray` (also used by `createBatches` of the
batch dispatcher): cut a list into groups of at most `size`, in order.  The
fuel argument (instantiated with the list length) keeps the recursion
structural; when it runs out the remainder is emitted as one group, which
never happens for the fuel `chunkArray` passes. -/
def chunkArrayGo {α : Type} (size : Nat) : Nat → List α → List (List α)
  | 0, l => if l.isEmpty then [] else [l]
  | fuel + 1, l =>
    if l.isEmpty then [] else l.take size :: chunkArrayGo size fuel (l.drop size)

/-- `chunkArray(array, size)` of `AttachmentHandler` and `RateLimiter`, and
`createBatches` of `BatchProcessor`. -/
def chunkArray {α : Type} (l : List α) (size : Nat) : List (List α) :=
  chunkArrayGo size l.length l

/-- `AttachmentHandler.attachFileToMultipleDrafts(messageIds, file)`:
processes the ids in groups of three; each id's upload either succeeds or
fails independently according to the oracle `attachFails` (the chunked upload
of the file for that draft, whose failure is caught per id); every id yields
exactly one result entry.  The `Promise.all` fan-out inside a group preserves
the group's order, so the sequential model returns the same array. -/
def attachFileToMultipleDrafts (attachFails : String → Option String)
    (messageIds : List String) : List AttachResult :=
  (chunkArray messageIds 3).foldl
    (fun results chunk =>
      results ++ chunk.map (fun messageId =>
        match attachFails messageId with
        | none => { messageId := messageId, success := true, error := none }
        | some e => { messageId := messageId, success := false, error := some e }))
    []

/-! ## Template sections and recipients (src/utils/templateMerge.ts,
src/services/batchProcessor.ts) -/

/-- The whitespace class of the JavaScript regexes and `trim` as it occurs in
the processed templates (the full `\s` class also holds rarer Unicode space
characters, which these templates never contain). -/
def jsIsSpace (c : Char) : Bool :=
  c == ' ' || c == '\t' || c == '\n' || c == '\r' || c == '\x0b' || c == '\x0c'

/-- `String.prototype.trimStart`. -/
def jsTrimStart (l : List Char) : List Char := l.dropWhile jsIsSpace

/-- `String.prototype.trimEnd`. -/
def jsTrimEnd (l : List Char) : List Char := (l.reverse.dropWhile jsIsSpace).reverse

/-- `String.prototype.trim`. -/
def jsTrim (l : List Char) : List Char := jsTrimEnd (jsTrimStart l)

/-- Separator class of `BatchProcessor.parseRecipients`: the input is split on
`[;,]+`, the parts on `\s+`, the pieces trimmed and empties dropped — which is
exactly tokenisation by runs of semicolons, commas and whitespace. -/
def isRecipientSep (c : Char) : Bool := c == ';' || c == ',' || jsIsSpace c

/-- Tokeniser used by `parseRecipients`: maximal runs of non-separator
characters, in order. -/
def splitTokensGo (sep : Char → Bool) : List Char → List Char → List (List Char)
  | [], acc => if acc.isEmpty then [] else [acc.reverse]
  | c :: rest, acc =>
    if sep c then
      if acc.isEmpty then splitTokensGo sep rest []
      else acc.reverse :: splitTokensGo sep rest []
    else splitTokensGo sep rest (c :: acc)

/-- `BatchProcessor.parseRecipients`. -/
def parseRecipients (input : List Char) : List (List Char) :=
  splitTokensGo isRecipientSep input []

/-- Result record of `parseTemplateSections`. -/
structure ParsedTemplate where
  subject : Option (List Char)
  toLine : Option (List Char)
  body : List Char
deriving DecidableEq, Repr

/-- Case-insensitive literal keyword match at the start of a line; returns the
remainder on success. -/
def matchKeyword (kw : List Char) (s : List Char) : Option (List Char) :=
  if (s.take kw.length).map Char.toLower = kw then some (s.drop kw.length) else none

/-- The `\s*:\s*` part of the header regex: optional spaces, a colon, optional
spaces; returns the header value (the rest of the trimmed line). -/
def afterHeaderColon (rest : List Char) : Option (List Char) :=
  match rest.dropWhile jsIsSpace with
  | ':' :: r2 => some (r2.dropWhile jsIsSpace)
  | _ => none

/-- Header match attempt for `recipients:`. -/
def matchHeaderRecipients (trimmed : List Char) : Option (Bool × List Char) :=
  match matchKeyword "recipients".toList trimmed with
  | some rest =>
    match afterHeaderColon rest with
    | some v => some (false, v)
    | none => none
  | none => none

/-- Header match attempt for `to:`, falling back to `recipients:`. -/
def matchHeaderTo (trimmed : List Char) : Option (Bool × List Char) :=
  match matchKeyword "to".toList trimmed with
  | some rest =>
    match afterHeaderColon rest with
    | some v => some (false, v)
    | none => matchHeaderRecipients trimmed
  | none => matchHeaderRecipients trimmed

/-- The header regex `^(subject|to|recipients)\s*:\s*(.*)$` (case-insensitive)
applied to a trimmed line: `true` marks a subject header, `false` a
recipients header. -/
def matchHeader (trimmed : List Char) : Option (Bool × List Char) :=
  match matchKeyword "subject".toList trimmed with
  | some rest =>
    match afterHeaderColon rest with
    | some v => some (true, v)
    | none => matchHeaderTo trimmed
  | none => matchHeaderTo trimmed

/-- The header-scanning loop of `parseTemplateSections`: walks the lines with
their index, recording `subject`/`to` headers until a blank line (after a
header) or a non-header line ends the header block; `bodyStartIndex` is where
the body begins (it stays 0 when the loop runs off the end). -/
def ptsGo (lines : List (List Char)) (normalized : List Char) :
    List (List Char) → Nat → Option (List Char) → Option (List Char) → Bool →
    ParsedTemplate
  | [], _, subject, toVal, sawHeader =>
    if sawHeader then
      { subject := subject, toLine := toVal
        body := jsTrimStart (List.intercalate ['\n'] lines) }
    else { subject := none, toLine := none, body := jsTrimEnd normalized }
  | line :: rest, i, subject, toVal, sawHeader =>
    let trimmed := jsTrim line
    if trimmed.isEmpty then
      if sawHeader then
        { subject := subject, toLine := toVal
          body := jsTrimStart (List.intercalate ['\n'] (lines.drop (i + 1))) }
      else ptsGo lines normalized rest (i + 1) subject toVal sawHeader
    else
      match matchHeader trimmed with
      | some hv =>
        if hv.1 then ptsGo lines normalized rest (i + 1) (some hv.2) toVal true
        else ptsGo lines normalized rest (i + 1) subject (some hv.2) true
      | none =>
        if sawHeader then
          { subject := subject, toLine := toVal
            body := jsTrimStart (List.intercalate ['\n'] (lines.drop i)) }
        else { subject := none, toLine := none, body := jsTrimEnd normalized }

/-- `parseTemplateSections(template)`: normalises line endings, splits into
lines and scans for the optional header block. -/
def parseTemplateSections (template : List Char) : ParsedTemplate :=
  let normalized := replaceAll ['\r', '\n'] ['\n'] template
  let lines := normalized.splitOn '\n'
  ptsGo lines normalized lines 0 none none false

/-! ## Batch dispatcher (src/services/batchProcessor.ts and
GraphClientService.createBatchDrafts of src/services/graphClient.ts) -/

/-- A contact is its field list, in `Object.keys` insertion order. -/
abbrev Contact := List (List Char × List Char)

/-- Property access `contact[key]` (an object has each key once; absent keys
read as the empty string, which only happens for fields the typed interface
does not promise). -/
def contactField (c : Contact) (key : List Char) : List Char :=
  match c.find? (fun kv => kv.1 == key) with
  | some kv => kv.2
  | none => []

/-- `contact.id`. -/
def contactId (c : Contact) : List Char := contactField c idKey

/-- `contact.email`. -/
def contactEmail (c : Contact) : List Char := contactField c emailKey

/-- The per-contact status of the dispatcher. -/
inductive ProcessingStatus where
  | pending
  | processing
  | completed
  | failed
deriving DecidableEq, Repr

/-- The `ProcessingResult` record of `BatchProcessor`. -/
structure ProcessingResult where
  contactId : List Char
  status : ProcessingStatus
  messageId : Option String := none
  error : Option String := none
deriving DecidableEq, Repr

/-- A result entry has reached one of the two terminal statuses. -/
def terminalStatus (r : ProcessingResult) : Prop :=
  r.status = ProcessingStatus.completed ∨ r.status = ProcessingStatus.failed

/-- One draft request prepared by `processBatch`. -/
structure DraftReq where
  subject : List Char
  body : List Char
  toEmails : List (List Char)
deriving DecidableEq, Repr

/-- One entry of the `$batch` HTTP response consumed by `createBatchDrafts`:
its request-correlation `id`, HTTP status, and the optional `body.id` and
`body.error.message` fields. -/
structure BatchResp where
  id : String
  status : Nat
  bodyId : Option String
  bodyErrorMessage : Option String
deriving DecidableEq, Repr

/-- One entry of the array returned by `createBatchDrafts`. -/
structure DraftResult where
  id : String
  success : Bool
  error : Option String
deriving DecidableEq, Repr

/-- JavaScript truthiness of an optional string (`undefined` and the empty
string are falsy). -/
def jsTruthy (o : Option String) : Bool :=
  match o with
  | none => false
  | some s => s != ""

/-- `o || d` on optional strings with JavaScript falsiness. -/
def jsOrStr (o : Option String) (d : String) : String :=
  match o with
  | none => d
  | some s => if s = "" then d else s

/-- The `responseMap` of `createBatchDrafts`: `Map.set` keyed by response id,
later writes winning. -/
def lookupResp (resps : List BatchResp) (requestId : String) : Option BatchResp :=
  resps.foldl (fun acc r => if r.id = requestId then some r else acc) none

/-- `GraphClientService.createBatchDrafts`: requests are numbered `1..n` in
draft order; the result maps every draft to its correlated response — absence,
a non-2xx status, or a missing `body.id` yield a failure entry, so the result
always has exactly one entry per draft. -/
def createBatchDrafts (drafts : List DraftReq) (resps : List BatchResp) :
    List DraftResult :=
  (List.range drafts.length).map (fun index =>
    let requestId := toString (index + 1)
    match lookupResp resps requestId with
    | none => { id := "", success := false, error := some "Missing batch response" }
    | some resp =>
      let messageId := resp.bodyId
      { id := match messageId with | some s => s | none => ""
        success :=
          decide (200 ≤ resp.status) && decide (resp.status < 300) && jsTruthy messageId
        error :=
          if 400 ≤ resp.status then resp.bodyErrorMessage
          else if jsTruthy messageId then none else some "Missing message id" })

/-- `results.find(r => r.contactId === contact.id)` followed by an in-place
mutation: rewrites the first entry with the given contact id. -/
def updateResult (results : List ProcessingResult) (cid : List Char)
    (f : ProcessingResult → ProcessingResult) : List ProcessingResult :=
  match results with
  | [] => []
  | r :: rs => if r.contactId = cid then f r :: rs else r :: updateResult rs cid f

/-- `results.find(r => r.messageId === result.messageId)` followed by an
in-place mutation (an entry without `messageId` never matches). -/
def updateByMessageId (results : List ProcessingResult) (mid : String)
    (f : ProcessingResult → ProcessingResult) : List ProcessingResult :=
  match results with
  | [] => []
  | r :: rs =>
    if r.messageId = some mid then f r :: rs else r :: updateByMessageId rs mid f

/-- The per-contact draft preparation inside `processBatch`: merge subject,
body and recipients, then fall back to the contact's own email when the merged
recipient line yields no addresses. -/
def buildDraft (subjectTemplate toTemplate bodyTemplate : List Char) (c : Contact) :
    DraftReq :=
  let subject := jsTrim (mergeTemplate subjectTemplate c)
  let body := mergeTemplate bodyTemplate c
  let mergedRecipients := jsTrim (mergeTemplate toTemplate c)
  let toEmails := parseRecipients mergedRecipients
  { subject := subject
    body := body
    toEmails :=
      if toEmails.isEmpty then
        (if (contactEmail c).isEmpty then [] else [contactEmail c])
      else toEmails }

/-- The body of the `batch.forEach((contact, index) => ...)` loop of
`processBatch`: looks up the contact's result entry and the per-item batch
response at the contact's ordinal; when both exist, records `completed` with
the created id (also collecting it) or `failed` with the item's error. -/
def processBatchStep (batchResults : List DraftResult)
    (acc : List ProcessingResult × List String) (ic : Nat × Contact) :
    List ProcessingResult × List String :=
  match acc.1.find? (fun r => r.contactId == contactId ic.2), batchResults[ic.1]? with
  | some _, some br =>
    if br.success then
      (updateResult acc.1 (contactId ic.2)
        (fun r => { r with status := .completed, messageId := some br.id }),
       acc.2 ++ [br.id])
    else
      (updateResult acc.1 (contactId ic.2)
        (fun r =>
          { r with status := .failed
                   error := some (jsOrStr br.error "Unknown error") }),
       acc.2)
  | _, _ => acc

/-- `BatchProcessor.processBatch`: marks the group's contacts `processing`,
prepares the drafts, submits them (`resps` is the outcome of the
`createBatchDrafts` call: a thrown transport error, or the `$batch` response
list), and maps every per-item response back to its contact by ordinal —
`completed` with the created id, or `failed` with the item's error; a
group-level throw marks the whole group `failed`.  Also returns the created
message ids in group order. -/
def processBatch (resps : Except String (List BatchResp))
    (subjectTemplate toTemplate bodyTemplate : List Char) (batch : List Contact)
    (results : List ProcessingResult) : List ProcessingResult × List String :=
  let results1 := batch.foldl
    (fun res c => updateResult res (contactId c)
      (fun r => { r with status := .processing }))
    results
  let drafts := batch.map (buildDraft subjectTemplate toTemplate bodyTemplate)
  match resps with
  | .error e =>
    (batch.foldl
      (fun res c => updateResult res (contactId c)
        (fun r => { r with status := .failed, error := some e }))
      results1, [])
  | .ok rs =>
    let batchResults := createBatchDrafts drafts rs
    (List.enumFrom 0 batch).foldl (processBatchStep batchResults) (results1, [])

/-- `BatchProcessor.createBatches`: groups of at most `batchSize` contacts in
original order. -/
def createBatches (contacts : List Contact) (batchSize : Nat) : List (List Contact) :=
  chunkArray contacts batchSize

/-- The per-group step of `processBatchesInParallel`: run one group through
`processBatch` (with the group's global index selecting its transport
outcome) and append the group's created ids. -/
def processBatchesStep (responses : Nat → Except String (List BatchResp))
    (subjectTemplate toTemplate bodyTemplate : List Char)
    (acc : List ProcessingResult × List String) (ib : Nat × List Contact) :
    List ProcessingResult × List String :=
  let r := processBatch (responses ib.1) subjectTemplate toTemplate bodyTemplate
    ib.2 acc.1
  (r.1, acc.2 ++ r.2)

/-- `BatchProcessor.processBatchesInParallel`: parses the template sections
once, then submits the groups — bounded to three in flight at a time, which
only interleaves updates of distinct contacts, so the sequential fold in
submission order computes the same results — collecting the created ids.
`responses` is the transport oracle, indexed by the group's global index. -/
def processBatchesInParallel (responses : Nat → Except String (List BatchResp))
    (templateContent : List Char) (batches : List (List Contact))
    (results : List ProcessingResult) : List ProcessingResult × List String :=
  let parsed := parseTemplateSections templateContent
  let subjectTemplate := parsed.subject.getD []
  let toTemplate := parsed.toLine.getD []
  let bodyTemplate := if parsed.body.isEmpty then templateContent else parsed.body
  (List.enumFrom 0 batches).foldl
    (processBatchesStep responses subjectTemplate toTemplate bodyTemplate)
    (results, [])

/-- `BatchProcessor.attachFilesToDrafts`: hands the created ids to the
uploader and downgrades the entry owning each failed attachment to `failed`;
successful attachments leave the results untouched. -/
def attachFilesToDrafts (attachFails : String → Option String)
    (messageIds : List String) (results : List ProcessingResult) :
    List ProcessingResult :=
  if messageIds.isEmpty then results
  else
    (attachFileToMultipleDrafts attachFails messageIds).foldl
      (fun res ar =>
        if ar.success then res
        else updateByMessageId res ar.messageId
          (fun r =>
            { r with status := .failed
                     error := some (jsOrStr ar.error "Attachment failed") }))
      results

/-- `BatchProcessor.processContacts`: seeds one `pending` result per contact,
requires a valid token (else throws the authentication error), processes the
20-sized groups, then runs the attachment pass over the created ids when an
attachment was supplied.  The returned list is the final state of the
`results` array (the caller observes it through `onProgress` snapshots and the
run's operation id). -/
def processContacts (hasValidToken : Bool)
    (responses : Nat → Except String (List BatchResp))
    (attachFails : String → Option String) (hasAttachment : Bool)
    (contacts : List Contact) (templateContent : List Char) :
    Except String (List ProcessingResult) :=
  let results : List ProcessingResult :=
    contacts.map (fun c => { contactId := contactId c, status := .pending })
  if !hasValidToken then .error "Authentication required. Please sign in again."
  else
    let batches := createBatches contacts 20
    let pr := processBatchesInParallel responses templateContent batches results
    let finalResults :=
      if hasAttachment then attachFilesToDrafts attachFails pr.2 pr.1 else pr.1
    .ok finalResults

/-! ## Concrete templates and contacts used as inputs of counterexamples and
witnesses. -/

/-- An ordinary contact: id `1`, name `Ann`, email `a@x`. -/
def c3Contact : List (List Char × List Char) :=
  [(idKey, ['1']), (nameKey, ['A', 'n', 'n']), (emailKey, ['a', '@', 'x'])]

/-- A field name that smuggles an `id` placeholder into its own spelling. -/
def c10WeirdKey : List Char := ['x', '{', '{', 'i', 'd']

/-- A contact that has the brace-smuggling field (with empty value) in
addition to the ordinary ones. -/
def c10Contact : List (List Char × List Char) :=
  [(idKey, ['1']), (nameKey, ['A', 'n', 'n']), (emailKey, ['a', '@', 'x']),
   (c10WeirdKey, [])]

/-- The template consisting of the placeholder of the brace-smuggling field;
spelled out it contains one occurrence of the `id` placeholder. -/
def c10Template : List Char := placeholder c10WeirdKey

/-- A template holding an `id` placeholder followed by a bang. -/
def c10WitnessTemplate : List Char := placeholder idKey ++ ['!']

/-- A contact named Ann. -/
def c5ContactAnn : Contact := [(idKey, ['1']), (nameKey, "Ann".toList), (emailKey, "a@x".toList)]

/-- A contact named Bob. -/
def c5ContactBob : Contact := [(idKey, ['2']), (nameKey, "Bob".toList), (emailKey, "b@x".toList)]

/-- A two-contact list with distinct ids. -/
def c5Contacts : List Contact := [c5ContactAnn, c5ContactBob]

/-- A batch response in which the first draft is created and the second is
rejected by the server. -/
def c5Responses : Nat → Except String (List BatchResp) := fun _ =>
  .ok [{ id := "1", status := 201, bodyId := some "msg-1", bodyErrorMessage := none },
       { id := "2", status := 500, bodyId := none, bodyErrorMessage := some "server error" }]

/-- A template with a subject header and a body. -/
def c5TemplateContent : List Char := "Subject: Hi\n\nHello".toList

/-- An attachment oracle whose uploads all succeed. -/
def c5AttachFails : String → Option String := fun _ => none

/-! ## Concrete scheduler jobs used as inputs of counterexamples and
witnesses. -/

/-- A job currently being executed by the scheduler loop. -/
def c1RunningJob : SchedulerJob :=
  { id := "job-1", campaignId := "camp-1", messageIds := ["m1", "m2"], runAt := 50
    folderName := "Campaign A", categoryName := none, attempts := 0, maxAttempts := 3
    status := .running, error := none, lastResult := none, createdAt := 10, updatedAt := 40 }

/-- A queued job whose `runAt` has already elapsed at time 1000. -/
def c8QueuedJob : SchedulerJob :=
  { id := "job-2", campaignId := "camp-2", messageIds := ["m1"], runAt := 0
    folderName := "Campaign B", categoryName := none, attempts := 0, maxAttempts := 3
    status := .queued, error := none, lastResult := none, createdAt := 0, updatedAt := 0 }

/-- A job persisted with status `running` by an unclean shutdown, with its
`runAt` long elapsed. -/
def c2PersistedRunningJob : SchedulerJob :=
  { id := "job-3", campaignId := "camp-3", messageIds := ["m1"], runAt := 0
    folderName := "Campaign C", categoryName := none, attempts := 1, maxAttempts := 3
    status := .running, error := none, lastResult := none, createdAt := 0, updatedAt := 0 }

/-- A freshly enqueued job with three allowed attempts. -/
def c4FreshJob : SchedulerJob :=
  { id := "job-4", campaignId := "camp-4", messageIds := ["m1"], runAt := 0
    folderName := "Campaign D", categoryName := none, attempts := 0, maxAttempts := 3
    status := .queued, error := none, lastResult := none, createdAt := 0, updatedAt := 0 }

/-- A run outcome in which every message fails its move. -/
def c4AlwaysFail : RunOutcome := .perMessage (fun _ => some "move failed")

/-- Four poll ticks timed so that the first three pick the job up exactly when
its backed-off `runAt` elapses. -/
def c4Ticks : List TickInput :=
  [{ now := 0, outcome := c4AlwaysFail }, { now := 60000, outcome := c4AlwaysFail },
   { now := 180000, outcome := c4AlwaysFail }, { now := 1000000000, outcome := c4AlwaysFail }]

/-- A queued job holding three distinct message ids. -/
def c7Job : SchedulerJob :=
  { id := "job-7", campaignId := "camp-7", messageIds := ["a", "b", "c"], runAt := 0
    folderName := "Campaign E", categoryName := some "Tag", attempts := 0, maxAttempts := 3
    status := .queued, error := none, lastResult := none, createdAt := 0, updatedAt := 0 }

/-- An outcome oracle that fails exactly the message id `b`. -/
def c7Oracle : String → Option String :=
  fun m => if m = "b" then some "move failed" else none

/-! # Theorems -/

/-! ## Scheduler operator requests (claims C1, C8) -/

/-- Helper: the cancel handler in one step. -/
theorem schedulerCancel_status (now : Nat) (job : SchedulerJob) :
    (schedulerCancel now job).status = .cancelled := rfl

/-- C1, counterexample: the claim says a cancel request on a `running` job
leaves its status unchanged, but the `campaign:scheduler-cancel` handler has
no status guard and moves this running job to `cancelled`. -/
theorem c1_cancel_running_counterexample :
    c1RunningJob.status = SchedulerStatus.running ∧
    (schedulerCancel 1000 c1RunningJob).status ≠ SchedulerStatus.running ∧
    (schedulerCancel 1000 c1RunningJob).status = SchedulerStatus.cancelled := by
  decide

/-- C1, amended: the cancel handler sets the status of every existing job to
`cancelled`, regardless of its current status — `queued` and `paused` jobs
become `cancelled` as the claim says, but so do `running`, `completed` and
`failed` jobs; `runAt` and `attempts` are untouched. -/
theorem c1_cancel_amended (now : Nat) (job : SchedulerJob) :
    (schedulerCancel now job).status = SchedulerStatus.cancelled ∧
    (schedulerCancel now job).runAt = job.runAt ∧
    (schedulerCancel now job).attempts = job.attempts :=
  ⟨rfl, rfl, rfl⟩

/-- C8, counterexample: the claim says a resume request on a job that is not
`paused` leaves both status and `runAt` unchanged, but the
`campaign:scheduler-resume` handler bumps an elapsed `runAt` to `now + 1000`
unconditionally: resuming this `queued` job rewrites its `runAt`. -/
theorem c8_resume_counterexample :
    c8QueuedJob.status ≠ SchedulerStatus.paused ∧
    (schedulerResume 1000 c8QueuedJob).runAt ≠ c8QueuedJob.runAt ∧
    (schedulerResume 1000 c8QueuedJob).status = c8QueuedJob.status := by
  decide

/-- C8, amended: resume turns exactly the `paused` status into `queued` and
leaves any other status unchanged, but the `runAt` rewrite applies to every
job regardless of status: `runAt` becomes `now + 1000` if and only if it had
already elapsed (`runAt < now`), and is untouched otherwise. -/
theorem c8_resume_amended (now : Nat) (job : SchedulerJob) :
    (schedulerResume now job).status
      = (if job.status = SchedulerStatus.paused then SchedulerStatus.queued else job.status) ∧
    (schedulerResume now job).runAt
      = (if job.runAt < now then now + 1000 else job.runAt) :=
  ⟨rfl, rfl⟩

/-! ## Restart reconciliation (claim C2) -/

/-- Helper: a job whose status is not `queued` is invisible to the poll loop. -/
theorem pollTickJob_not_queued (t : TickInput) (job : SchedulerJob)
    (h : job.status ≠ .queued) : pollTickJob t job = (job, false) := by
  unfold pollTickJob
  rw [if_neg]
  intro hc
  exact h hc.1

/-- Helper: a job whose status is not `queued` survives any tick sequence
untouched and is never run. -/
theorem runTrace_not_queued (job : SchedulerJob) (h : job.status ≠ .queued) :
    ∀ ts : List TickInput, runTrace job ts = (job, 0) := by
  intro ts
  induction ts with
  | nil => rfl
  | cons t ts ih =>
    show runTrace job (t :: ts) = (job, 0)
    unfold runTrace
    rw [pollTickJob_not_queued t job h]
    simp [ih]

/-- C2: the claim (and the spec) require a job persisted as `running` by an
unclean shutdown to be reconciled and re-picked-up after restart.  The code
does neither: `loadSchedulerJobs` replays the record with status `running`
unchanged, and the poll loop only selects `queued` jobs, so the job is never
run again by any sequence of poll ticks — it is permanently ignored.  This
theorem evaluates the code at that failing input. -/
theorem c2_running_job_never_repicked :
    loadSchedulerJobs [c2PersistedRunningJob] = [c2PersistedRunningJob] ∧
    c2PersistedRunningJob.status = SchedulerStatus.running ∧
    c2PersistedRunningJob.runAt = 0 ∧
    ∀ ts : List TickInput, runTrace c2PersistedRunningJob ts = (c2PersistedRunningJob, 0) := by
  refine ⟨by decide, by decide, by decide, ?_⟩
  exact runTrace_not_queued c2PersistedRunningJob (by decide)

/-! ## Scheduler run transitions and backoff (claims C4, C7) -/

/-- Helper: the failure list of a run partition is empty exactly when every
message succeeds. -/
theorem runPartition_snd_eq_nil_iff (f : String → Option String) (ids : List String) :
    (runPartition f ids).2 = [] ↔ ∀ m ∈ ids, f m = none := by
  induction ids with
  | nil => simp [runPartition]
  | cons m ms ih =>
    cases hm : f m with
    | none => simp [runPartition, hm, ih]
    | some e => simp [runPartition, hm]

/-- Helper: the succeeded list of a run is the filter of the ids whose oracle
outcome is `none`. -/
theorem runPartition_fst (f : String → Option String) (ids : List String) :
    (runPartition f ids).1 = ids.filter (fun m => (f m).isNone) := by
  induction ids with
  | nil => rfl
  | cons m ms ih =>
    cases hm : f m with
    | none => simp [runPartition, hm, ih]
    | some e => simp [runPartition, hm, ih]

/-- Helper: the message ids of the failed list are the filter of the ids whose
oracle outcome is an error. -/
theorem runPartition_snd_map_fst (f : String → Option String) (ids : List String) :
    (runPartition f ids).2.map Prod.fst = ids.filter (fun m => !(f m).isNone) := by
  induction ids with
  | nil => rfl
  | cons m ms ih =>
    cases hm : f m with
    | none => simp [runPartition, hm, ih]
    | some e => simp [runPartition, hm, ih]

/-- Helper: a failing run increments `attempts` and either requeues with the
backoff `now + min 600000 (30000 * 2 ^ (attempts + 1))` or fails for good. -/
theorem runSchedulerJobUpdate_failure (now : Nat) (f : String → Option String)
    (job : SchedulerJob) (hfail : ∃ m ∈ job.messageIds, f m ≠ none) :
    (runSchedulerJobUpdate now f job).attempts = job.attempts + 1 ∧
    (job.attempts + 1 < job.maxAttempts →
      (runSchedulerJobUpdate now f job).status = SchedulerStatus.queued ∧
      (runSchedulerJobUpdate now f job).runAt
        = now + Nat.min 600000 (30000 * 2 ^ (job.attempts + 1))) ∧
    (job.maxAttempts ≤ job.attempts + 1 →
      (runSchedulerJobUpdate now f job).status = SchedulerStatus.failed) := by
  have hne : (runPartition f job.messageIds).2 ≠ [] := by
    rw [ne_eq, runPartition_snd_eq_nil_iff]
    intro hall
    obtain ⟨m, hm, hf⟩ := hfail
    exact hf (hall m hm)
  have hE : (runPartition f job.messageIds).2.isEmpty = false := by
    cases h2 : (runPartition f job.messageIds).2 with
    | nil => exact absurd h2 hne
    | cons a l => rfl
  refine ⟨?_, ?_, ?_⟩
  · simp [runSchedulerJobUpdate, updateSchedulerJob]
  · intro hlt
    have hd : decide (job.attempts + 1 < job.maxAttempts) = true := by
      simpa using hlt
    constructor
    · simp [runSchedulerJobUpdate, updateSchedulerJob, hE, hd]
    · simp [runSchedulerJobUpdate, updateSchedulerJob, hE, hd, Nat.mul_comm]
  · intro hge
    have hd : decide (job.attempts + 1 < job.maxAttempts) = false := by
      simp
      omega
    simp [runSchedulerJobUpdate, updateSchedulerJob, hE, hd]

/-- Helper: field bookkeeping of a per-message run update, and the fact that
it can only requeue when an attempt remained. -/
theorem runSchedulerJobUpdate_facts (now : Nat) (f : String → Option String)
    (job : SchedulerJob) :
    (runSchedulerJobUpdate now f job).attempts = job.attempts + 1 ∧
    (runSchedulerJobUpdate now f job).maxAttempts = job.maxAttempts ∧
    ((runSchedulerJobUpdate now f job).status = SchedulerStatus.queued →
      job.attempts + 1 < job.maxAttempts) := by
  refine ⟨rfl, rfl, ?_⟩
  intro hq
  by_cases hE : (runPartition f job.messageIds).2.isEmpty
  · exact absurd hq (by simp [runSchedulerJobUpdate, updateSchedulerJob, hE])
  · by_cases hlt : job.attempts + 1 < job.maxAttempts
    · exact hlt
    · have hd : decide (job.attempts + 1 < job.maxAttempts) = false := by
        simpa using hlt
      have hE' : (runPartition f job.messageIds).2.isEmpty = false := by
        simpa using hE
      exact absurd hq (by simp [runSchedulerJobUpdate, updateSchedulerJob, hE', hd])

/-- Helper: field bookkeeping of the catch-branch update. -/
theorem tickCatchUpdate_facts (now : Nat) (msg : String) (job : SchedulerJob) :
    (tickCatchUpdate now msg job).attempts = job.attempts + 1 ∧
    (tickCatchUpdate now msg job).maxAttempts = job.maxAttempts ∧
    ((tickCatchUpdate now msg job).status = SchedulerStatus.queued →
      job.attempts + 1 < job.maxAttempts) := by
  refine ⟨rfl, rfl, ?_⟩
  intro hq
  by_cases hlt : job.attempts + 1 < job.maxAttempts
  · exact hlt
  · exact absurd hq (by simp [tickCatchUpdate, updateSchedulerJob, hlt])

/-- Helper: over any tick sequence, a job that satisfies the enqueue invariant
(`queued` implies attempts remain) is run at most `maxAttempts - attempts`
times. -/
theorem runTrace_runs_le (ts : List TickInput) :
    ∀ job : SchedulerJob, (job.status = .queued → job.attempts < job.maxAttempts) →
      (runTrace job ts).2 ≤ job.maxAttempts - job.attempts := by
  induction ts with
  | nil => intro job _; simp [runTrace]
  | cons t ts ih =>
    intro job hinv
    simp only [runTrace]
    by_cases hdue : job.status = .queued ∧ job.runAt ≤ t.now
    · have hlt : job.attempts < job.maxAttempts := hinv hdue.1
      cases hout : t.outcome with
      | perMessage f =>
        have hstep : pollTickJob t job
            = (runSchedulerJobUpdate t.now f
                (updateSchedulerJob t.now
                  (fun current => { current with status := .running, error := none }) job),
               true) := by
          unfold pollTickJob
          rw [if_pos hdue, hout]
        rw [hstep]
        simp only [if_true]
        set j1 := updateSchedulerJob t.now
          (fun current => { current with status := .running, error := none }) job with hj1
        have hfacts := runSchedulerJobUpdate_facts t.now f j1
        have hrec := ih (runSchedulerJobUpdate t.now f j1)
          (by
            intro hq
            rw [hfacts.1, hfacts.2.1]
            have := hfacts.2.2 hq
            omega)
        have ha : j1.attempts = job.attempts := rfl
        have hm : j1.maxAttempts = job.maxAttempts := rfl
        rw [hfacts.1, hfacts.2.1, ha, hm] at hrec
        omega
      | thrown msg =>
        have hstep : pollTickJob t job
            = (tickCatchUpdate t.now msg
                (updateSchedulerJob t.now
                  (fun current => { current with status := .running, error := none }) job),
               true) := by
          unfold pollTickJob
          rw [if_pos hdue, hout]
        rw [hstep]
        simp only [if_true]
        set j1 := updateSchedulerJob t.now
          (fun current => { current with status := .running, error := none }) job with hj1
        have hfacts := tickCatchUpdate_facts t.now msg j1
        have hrec := ih (tickCatchUpdate t.now msg j1)
          (by
            intro hq
            rw [hfacts.1, hfacts.2.1]
            have := hfacts.2.2 hq
            omega)
        have ha : j1.attempts = job.attempts := rfl
        have hm : j1.maxAttempts = job.maxAttempts := rfl
        rw [hfacts.1, hfacts.2.1, ha, hm] at hrec
        omega
    · have hstep : pollTickJob t job = (job, false) := by
        unfold pollTickJob
        rw [if_neg hdue]
      rw [hstep]
      simpa using ih job hinv

/-- C4: a run that fails at least one message increments `attempts`; while
`attempts + 1 < maxAttempts` the job is requeued with
`runAt = now + min 600000 (30000 * 2 ^ (attempts + 1))`, otherwise it becomes
`failed`.  Consequently a fresh job with `maxAttempts = 3` is never run more
than 3 times over any tick sequence, and on the concrete always-failing
four-tick schedule it is run exactly 3 times, ending `failed` with
`attempts = 3`. -/
theorem c4_backoff_and_attempt_cap :
    (∀ (now : Nat) (f : String → Option String) (job : SchedulerJob),
      (∃ m ∈ job.messageIds, f m ≠ none) →
      (runSchedulerJobUpdate now f job).attempts = job.attempts + 1 ∧
      (job.attempts + 1 < job.maxAttempts →
        (runSchedulerJobUpdate now f job).status = SchedulerStatus.queued ∧
        (runSchedulerJobUpdate now f job).runAt
          = now + Nat.min 600000 (30000 * 2 ^ (job.attempts + 1))) ∧
      (job.maxAttempts ≤ job.attempts + 1 →
        (runSchedulerJobUpdate now f job).status = SchedulerStatus.failed)) ∧
    (∀ (job : SchedulerJob) (ts : List TickInput),
      job.status = SchedulerStatus.queued → job.attempts = 0 → job.maxAttempts = 3 →
      (runTrace job ts).2 ≤ 3) ∧
    ((runTrace c4FreshJob c4Ticks).2 = 3 ∧
      (runTrace c4FreshJob c4Ticks).1.status = SchedulerStatus.failed ∧
      (runTrace c4FreshJob c4Ticks).1.attempts = 3) := by
  refine ⟨?_, ?_, ?_, ?_, ?_⟩
  · intro now f job hfail
    exact runSchedulerJobUpdate_failure now f job hfail
  · intro job ts hq ha hm
    have := runTrace_runs_le ts job (by intro _; omega)
    omega
  · decide
  · decide
  · decide

/-- C4, witness: the general parts of `c4_backoff_and_attempt_cap`
instantiated at the concrete fresh job and an always-failing oracle. -/
theorem c4_backoff_witness :
    (runSchedulerJobUpdate 0 (fun _ => some "move failed") c4FreshJob).status
      = SchedulerStatus.queued ∧
    (runSchedulerJobUpdate 0 (fun _ => some "move failed") c4FreshJob).runAt
      = 0 + Nat.min 600000 (30000 * 2 ^ 1) ∧
    (runTrace c4FreshJob c4Ticks).2 ≤ 3 := by
  have h := c4_backoff_and_attempt_cap.1 0 (fun _ => some "move failed") c4FreshJob
    ⟨"m1", by decide, by decide⟩
  have h2 := c4_backoff_and_attempt_cap.2.1 c4FreshJob c4Ticks (by decide) (by decide) (by decide)
  exact ⟨(h.2.1 (by decide)).1, (h.2.1 (by decide)).2, h2⟩

/-- C7: after a completed run the stored `lastResult` partitions the job's
deduplicated `messageIds` exactly: the succeeded ids together with the failed
ids form a permutation of `messageIds` with no duplicates, so every id of the
job appears in exactly one of the two lists and no other id appears. -/
theorem c7_lastResult_partitions (now : Nat) (f : String → Option String)
    (job : SchedulerJob) (h : job.messageIds.Nodup) :
    ∃ S F, (runSchedulerJobUpdate now f job).lastResult = some (S, F) ∧
      List.Perm (S ++ F.map Prod.fst) job.messageIds ∧
      (S ++ F.map Prod.fst).Nodup := by
  refine ⟨(runPartition f job.messageIds).1, (runPartition f job.messageIds).2, ?_, ?_, ?_⟩
  · simp [runSchedulerJobUpdate, updateSchedulerJob]
  · rw [runPartition_fst, runPartition_snd_map_fst]
    exact List.filter_append_perm (fun m => (f m).isNone) job.messageIds
  · have hperm : List.Perm ((runPartition f job.messageIds).1
        ++ (runPartition f job.messageIds).2.map Prod.fst) job.messageIds := by
      rw [runPartition_fst, runPartition_snd_map_fst]
      exact List.filter_append_perm (fun m => (f m).isNone) job.messageIds
    exact hperm.symm.nodup h

/-- C7, witness: the partition property evaluated on a concrete job whose
message `b` fails while `a` and `c` succeed. -/
theorem c7_lastResult_witness :
    ∃ S F, (runSchedulerJobUpdate 5 c7Oracle c7Job).lastResult = some (S, F) ∧
      List.Perm (S ++ F.map Prod.fst) c7Job.messageIds ∧
      (S ++ F.map Prod.fst).Nodup :=
  c7_lastResult_partitions 5 c7Oracle c7Job (by decide)

/-! ## Merge-field substitution lemmas (claims C3, C10) -/

/-- Helper: prefix test on two cons cells, definitionally. -/
theorem isPrefixOf_cons_cons (a b : Char) (l m : List Char) :
    (a :: l).isPrefixOf (b :: m) = (a == b && l.isPrefixOf m) := rfl

/-- Helper: a prefix test with mismatching heads fails. -/
theorem isPrefixOf_cons_ne (a b : Char) (l m : List Char) (h : a ≠ b) :
    (a :: l).isPrefixOf (b :: m) = false := by
  rw [isPrefixOf_cons_cons]
  simp [h]

/-- Helper: a list is a prefix of itself extended by anything. -/
theorem isPrefixOf_append_self (l r : List Char) : l.isPrefixOf (l ++ r) = true := by
  rw [List.isPrefixOf_iff_prefix]
  exact ⟨r, rfl⟩

/-- Helper: unpacking brace-freeness of a cons cell. -/
theorem braceFree_cons (c : Char) (l : List Char) :
    braceFree (c :: l) = true ↔ (c ≠ '{' ∧ c ≠ '}' ∧ braceFree l = true) := by
  simp [braceFree, and_assoc]

/-- Helper: the spelled-out shape of a placeholder. -/
theorem placeholder_cons (k : List Char) :
    placeholder k = '{' :: ('{' :: (k ++ ['}', '}'])) := rfl

/-- Helper: a pattern starting with an opening brace cannot match at a
character that is not an opening brace. -/
theorem brace_pat_no_match (w : List Char) (c : Char) (s : List Char) (hc : c ≠ '{') :
    ('{' :: w).isPrefixOf (c :: s) = false :=
  isPrefixOf_cons_ne '{' c w s (fun h => hc h.symm)

/-- Helper: a pattern starting with an opening brace cannot match at the start
of a brace-free string followed by a closing brace. -/
theorem brace_pat_no_match_bfree_append (w k' t : List Char) (hk' : braceFree k' = true) :
    ('{' :: w).isPrefixOf (k' ++ ('}' :: t)) = false := by
  cases k' with
  | nil => exact brace_pat_no_match w '}' t (by decide)
  | cons c k'' =>
    have hc := (braceFree_cons c k'').mp hk'
    simp only [List.cons_append]
    exact brace_pat_no_match w c _ hc.1

/-- Helper: two distinct brace-free keys followed by their closing braces are
never prefixes of one another. -/
theorem key_closing_no_match :
    ∀ (k k' r : List Char), braceFree k = true → braceFree k' = true → k ≠ k' →
    (k ++ ['}', '}']).isPrefixOf (k' ++ ('}' :: '}' :: r)) = false := by
  intro k
  induction k with
  | nil =>
    intro k' r _ hk' hne
    cases k' with
    | nil => exact absurd rfl hne
    | cons c' k'' =>
      have hc := (braceFree_cons c' k'').mp hk'
      simp only [List.nil_append, List.cons_append]
      exact isPrefixOf_cons_ne '}' c' _ _ (fun h => hc.2.1 h.symm)
  | cons c k2 ih =>
    intro k' r hk hk' hne
    have hc := (braceFree_cons c k2).mp hk
    cases k' with
    | nil =>
      simp only [List.cons_append, List.nil_append]
      exact isPrefixOf_cons_ne c '}' _ _ hc.2.1
    | cons c' k'2 =>
      simp only [List.cons_append]
      rw [isPrefixOf_cons_cons]
      by_cases hcc : c = c'
      · subst hcc
        have hk'2 := (braceFree_cons c k'2).mp hk'
        have hne2 : k2 ≠ k'2 := fun he => hne (by rw [he])
        rw [ih k'2 r hc.2.2 hk'2.2.2 hne2]
        simp
      · simp [hcc]

/-- Helper: a placeholder for one key never matches at the start of the
placeholder of a different brace-free key. -/
theorem placeholder_no_match (k k' r : List Char) (hk : braceFree k = true)
    (hk' : braceFree k' = true) (hne : k ≠ k') :
    (placeholder k).isPrefixOf (placeholder k' ++ r) = false := by
  rw [placeholder_cons, placeholder_cons]
  simp only [List.cons_append, List.append_assoc, List.nil_append]
  rw [isPrefixOf_cons_cons, isPrefixOf_cons_cons]
  rw [key_closing_no_match k k' r hk hk' hne]
  simp

/-- Helper: occurrence counting over an extended list never decreases. -/
theorem countPos_append_ge (pat a b : List Char) :
    countPos pat b ≤ countPos pat (a ++ b) := by
  induction a with
  | nil => simp
  | cons c a' ih =>
    calc countPos pat b ≤ countPos pat (a' ++ b) := ih
      _ ≤ countPos pat (c :: (a' ++ b)) := by
          simp only [countPos]
          omega
      _ = countPos pat ((c :: a') ++ b) := by simp

/-- Helper: a non-match at the head leaves the occurrence count to the tail. -/
theorem countPos_cons_no_match (pat : List Char) (c : Char) (s : List Char)
    (h : pat.isPrefixOf (c :: s) = false) : countPos pat (c :: s) = countPos pat s := by
  simp [countPos, h]

/-- Helper: a brace-free segment contributes no occurrence positions of a
placeholder-shaped pattern. -/
theorem countPos_bfree_append (w u b : List Char) (hu : braceFree u = true) :
    countPos ('{' :: w) (u ++ b) = countPos ('{' :: w) b := by
  induction u with
  | nil => simp
  | cons c u' ih =>
    have hc := (braceFree_cons c u').mp hu
    simp only [List.cons_append]
    rw [countPos_cons_no_match _ _ _ (brace_pat_no_match w c _ hc.1)]
    exact ih hc.2.2

/-- Helper: occurrence positions of a placeholder in a string beginning with
that very placeholder: one at the front, plus those of the remainder. -/
theorem countPos_pid_self_append (k' X : List Char) (hk' : braceFree k' = true) :
    countPos (placeholder k') (placeholder k' ++ X) = 1 + countPos (placeholder k') X := by
  have hsh : placeholder k' ++ X = '{' :: '{' :: (k' ++ ('}' :: '}' :: X)) := by
    simp [placeholder]
  have h0 : (placeholder k').isPrefixOf (placeholder k' ++ X) = true :=
    isPrefixOf_append_self _ _
  rw [hsh] at h0
  have h1 : (placeholder k').isPrefixOf ('{' :: (k' ++ ('}' :: '}' :: X))) = false := by
    rw [placeholder_cons, isPrefixOf_cons_cons]
    rw [brace_pat_no_match_bfree_append _ k' _ hk']
    simp
  have h2 : (placeholder k').isPrefixOf ('}' :: ('}' :: X)) = false := by
    rw [placeholder_cons]
    exact brace_pat_no_match _ '}' _ (by decide)
  have h3 : (placeholder k').isPrefixOf ('}' :: X) = false := by
    rw [placeholder_cons]
    exact brace_pat_no_match _ '}' _ (by decide)
  rw [hsh]
  simp only [countPos, h0, h1]
  rw [show countPos (placeholder k') (k' ++ ('}' :: '}' :: X))
        = countPos (placeholder k') ('}' :: '}' :: X) from
      countPos_bfree_append _ k' _ hk']
  simp only [countPos, h2, h3]
  simp

/-- Helper: occurrence positions of a placeholder in a string beginning with
the placeholder of a different brace-free key: exactly those of the
remainder. -/
theorem countPos_pid_other_append (k k' rest : List Char) (hk : braceFree k = true)
    (hk' : braceFree k' = true) (hne : k ≠ k') :
    countPos (placeholder k') (placeholder k ++ rest) = countPos (placeholder k') rest := by
  have hsh : placeholder k ++ rest = '{' :: '{' :: (k ++ ('}' :: '}' :: rest)) := by
    simp [placeholder]
  have h0 : (placeholder k').isPrefixOf (placeholder k ++ rest) = false :=
    placeholder_no_match k' k rest hk' hk (fun h => hne h.symm)
  rw [hsh] at h0
  have h1 : (placeholder k').isPrefixOf ('{' :: (k ++ ('}' :: '}' :: rest))) = false := by
    rw [placeholder_cons, isPrefixOf_cons_cons]
    rw [brace_pat_no_match_bfree_append _ k _ hk]
    simp
  have h2 : (placeholder k').isPrefixOf ('}' :: ('}' :: rest)) = false := by
    rw [placeholder_cons]
    exact brace_pat_no_match _ '}' _ (by decide)
  have h3 : (placeholder k').isPrefixOf ('}' :: rest) = false := by
    rw [placeholder_cons]
    exact brace_pat_no_match _ '}' _ (by decide)
  rw [hsh]
  simp only [countPos, h0, h1]
  rw [show countPos (placeholder k') (k ++ ('}' :: '}' :: rest))
        = countPos (placeholder k') ('}' :: '}' :: rest) from
      countPos_bfree_append _ k _ hk]
  simp only [countPos, h2, h3]
  simp

/-- Helper: the replacement scanner maps the empty string to itself. -/
theorem replaceAllGo_nil (pat rep : List Char) (fuel : Nat) :
    replaceAllGo pat rep fuel [] = [] := by
  cases fuel with
  | zero => rfl
  | succ f => cases pat <;> rfl

/-- Helper: one copying step of the replacement scanner. -/
theorem replaceAllGo_cons_no_match (pat rep : List Char) (f : Nat) (c : Char)
    (s : List Char) (h : pat.isPrefixOf (c :: s) = false) :
    replaceAllGo pat rep (f + 1) (c :: s) = c :: replaceAllGo pat rep f s := by
  simp [replaceAllGo, h]

/-- Helper: one replacing step of the scanner at a nonempty matching pattern. -/
theorem replaceAllGo_cons_match (pat rep : List Char) (f : Nat) (s : List Char)
    (hp : pat.isPrefixOf s = true) (hne : pat.isEmpty = false) :
    replaceAllGo pat rep (f + 1) s
      = rep ++ replaceAllGo pat rep f (s.drop pat.length) := by
  simp [replaceAllGo, hp, hne]

/-- Helper: the scanner copies a brace-free segment verbatim (a
placeholder-shaped pattern can only match at an opening brace). -/
theorem replaceAllGo_copies_bfree (w rep : List Char) :
    ∀ (u : List Char), braceFree u = true → ∀ (fuel : Nat) (b : List Char),
      u.length ≤ fuel →
      replaceAllGo ('{' :: w) rep fuel (u ++ b)
        = u ++ replaceAllGo ('{' :: w) rep (fuel - u.length) b := by
  intro u
  induction u with
  | nil => intro _ fuel b _; simp
  | cons c u' ih =>
    intro hu fuel b hlen
    have hc := (braceFree_cons c u').mp hu
    cases fuel with
    | zero => simp at hlen
    | succ f =>
      simp only [List.cons_append]
      rw [replaceAllGo_cons_no_match _ _ _ _ _ (brace_pat_no_match w c _ hc.1)]
      rw [ih hc.2.2 f b (by simpa using hlen)]
      simp [Nat.succ_sub_succ]

/-- Helper: the scanner for the pattern of key `k` copies the tail of the
placeholder of a different key verbatim. -/
theorem replaceAllGo_copies_pid_tail (k k' rep : List Char)
    (hk' : braceFree k' = true) :
    ∀ (fuel : Nat) (r : List Char), k'.length + 3 ≤ fuel →
      replaceAllGo (placeholder k) rep fuel ('{' :: (k' ++ ('}' :: '}' :: r)))
        = '{' :: (k' ++ ('}' :: '}' ::
            replaceAllGo (placeholder k) rep (fuel - (k'.length + 3)) r)) := by
  intro fuel r hlen
  obtain ⟨f1, rfl⟩ : ∃ f1, fuel = f1 + 1 := ⟨fuel - 1, by omega⟩
  have h1 : (placeholder k).isPrefixOf ('{' :: (k' ++ ('}' :: '}' :: r))) = false := by
    rw [placeholder_cons, isPrefixOf_cons_cons]
    rw [brace_pat_no_match_bfree_append _ k' _ hk']
    simp
  rw [replaceAllGo_cons_no_match _ _ _ _ _ h1]
  rw [placeholder_cons, replaceAllGo_copies_bfree _ _ k' hk' f1 _ (by omega)]
  obtain ⟨f2, hf2⟩ : ∃ f2, f1 - k'.length = f2 + 2 := ⟨f1 - k'.length - 2, by omega⟩
  rw [hf2]
  have h2 : ('{' :: ('{' :: (k ++ ['}', '}']))).isPrefixOf ('}' :: ('}' :: r)) = false :=
    brace_pat_no_match _ '}' _ (by decide)
  have h3 : ('{' :: ('{' :: (k ++ ['}', '}']))).isPrefixOf ('}' :: r) = false :=
    brace_pat_no_match _ '}' _ (by decide)
  rw [replaceAllGo_cons_no_match _ _ _ _ _ h2]
  rw [replaceAllGo_cons_no_match _ _ _ _ _ h3]
  rw [show f2 = f1 + 1 - (k'.length + 3) from by omega]

/-- Helper: the scanner for the pattern of key `k` copies the whole
placeholder of a different key verbatim. -/
theorem replaceAllGo_copies_pid (k k' rep : List Char) (hk : braceFree k = true)
    (hk' : braceFree k' = true) (hne : k ≠ k') :
    ∀ (fuel : Nat) (r : List Char), k'.length + 4 ≤ fuel →
      replaceAllGo (placeholder k) rep fuel (placeholder k' ++ r)
        = placeholder k' ++
            replaceAllGo (placeholder k) rep (fuel - (k'.length + 4)) r := by
  intro fuel r hlen
  obtain ⟨f1, rfl⟩ : ∃ f1, fuel = f1 + 1 := ⟨fuel - 1, by omega⟩
  have hsh : placeholder k' ++ r = '{' :: ('{' :: (k' ++ ('}' :: '}' :: r))) := by
    simp [placeholder]
  have h0 := placeholder_no_match k k' r hk hk' hne
  rw [hsh] at h0
  rw [hsh, replaceAllGo_cons_no_match _ _ _ _ _ h0]
  rw [replaceAllGo_copies_pid_tail k k' rep hk' f1 r (by omega)]
  rw [show f1 - (k'.length + 3) = f1 + 1 - (k'.length + 4) from by omega]
  simp [placeholder]

/-- Helper: replacing a key's placeholder inside exactly that placeholder
yields exactly the replacement value. -/
theorem replaceAll_placeholder_self (k v : List Char) :
    replaceAll (placeholder k) v (placeholder k) = v := by
  unfold replaceAll
  have hlen : (placeholder k).length = (k.length + 3) + 1 := by
    simp [placeholder]
  have hp : (placeholder k).isPrefixOf (placeholder k) = true := by
    have h := isPrefixOf_append_self (placeholder k) []
    rw [List.append_nil] at h
    exact h
  rw [hlen, replaceAllGo_cons_match _ _ _ _ hp rfl]
  rw [List.drop_length, replaceAllGo_nil]
  simp

/-- Helper: a brace-free string is untouched by any placeholder replacement. -/
theorem replaceAll_bfree_fixed (k0 v0 s : List Char) (hs : braceFree s = true) :
    replaceAll (placeholder k0) v0 s = s := by
  unfold replaceAll
  have h := replaceAllGo_copies_bfree ('{' :: (k0 ++ ['}', '}'])) v0 s hs s.length []
    (le_refl _)
  rw [List.append_nil] at h
  rw [placeholder_cons, h, Nat.sub_self]
  simp [replaceAllGo_nil]

/-- Helper: the placeholder of one brace-free key is untouched by replacing
the placeholder of a different brace-free key. -/
theorem replaceAll_placeholder_other (k0 k v0 : List Char) (hk0 : braceFree k0 = true)
    (hk : braceFree k = true) (hne : k0 ≠ k) :
    replaceAll (placeholder k0) v0 (placeholder k) = placeholder k := by
  unfold replaceAll
  have hlen : (placeholder k).length = k.length + 4 := by
    simp [placeholder]
  have h := replaceAllGo_copies_pid k0 k v0 hk0 hk hne (placeholder k).length []
    (by omega)
  rw [List.append_nil] at h
  rw [h, hlen, Nat.sub_self]
  simp [replaceAllGo_nil]

/-- Helper: replacing the placeholder of a brace-free key `k` never destroys
an occurrence of the placeholder of a different brace-free key `k'`: the
occurrence count of the latter never decreases under the scanner. -/
theorem countPos_replaceAllGo_ge (k k' rep : List Char) (hk : braceFree k = true)
    (hk' : braceFree k' = true) (hne : k ≠ k') :
    ∀ (fuel : Nat) (s : List Char), s.length ≤ fuel →
      countPos (placeholder k') s
        ≤ countPos (placeholder k') (replaceAllGo (placeholder k) rep fuel s) := by
  intro fuel
  induction fuel using Nat.strong_induction_on with
  | _ fuel ih =>
    intro s hlen
    cases fuel with
    | zero =>
      have hs : s = [] := List.eq_nil_of_length_eq_zero (by omega)
      subst hs
      simp [replaceAllGo]
    | succ f =>
      cases s with
      | nil => rw [replaceAllGo_nil]
      | cons c s0 =>
        by_cases hmatch : (placeholder k).isPrefixOf (c :: s0) = true
        · have hpfx : placeholder k <+: (c :: s0) := List.isPrefixOf_iff_prefix.mp hmatch
          obtain ⟨rest, hrest⟩ := hpfx
          have hlenr : s0.length + 1 = (k.length + 4) + rest.length := by
            have := congrArg List.length hrest
            simp [placeholder] at this
            omega
          have hstep := replaceAllGo_cons_match (placeholder k) rep f (c :: s0) hmatch rfl
          have hdrop : (c :: s0).drop (placeholder k).length = rest := by
            rw [← hrest]
            exact List.drop_left _ _
          rw [hstep, hdrop, ← hrest]
          rw [countPos_pid_other_append k k' rest hk hk' hne]
          calc countPos (placeholder k') rest
              ≤ countPos (placeholder k') (replaceAllGo (placeholder k) rep f rest) :=
                ih f (by omega) rest (by simp at hlen; omega)
            _ ≤ countPos (placeholder k')
                  (rep ++ replaceAllGo (placeholder k) rep f rest) :=
                countPos_append_ge _ rep _
        · have hmatch' : (placeholder k).isPrefixOf (c :: s0) = false := by
            cases hval : (placeholder k).isPrefixOf (c :: s0) with
            | false => rfl
            | true => exact absurd hval hmatch
          by_cases hpid : (placeholder k').isPrefixOf (c :: s0) = true
          · have hpfx : placeholder k' <+: (c :: s0) := List.isPrefixOf_iff_prefix.mp hpid
            obtain ⟨r0, hr0⟩ := hpfx
            have hlenr : s0.length + 1 = (k'.length + 4) + r0.length := by
              have := congrArg List.length hr0
              simp [placeholder] at this
              omega
            have hCT := replaceAllGo_copies_pid k k' rep hk hk' hne (f + 1) r0
              (by simp at hlen; omega)
            rw [← hr0, hCT]
            rw [countPos_pid_self_append k' _ hk', countPos_pid_self_append k' _ hk']
            have := ih (f + 1 - (k'.length + 4)) (by omega) r0 (by simp at hlen; omega)
            omega
          · have hpid' : (placeholder k').isPrefixOf (c :: s0) = false := by
              cases hval : (placeholder k').isPrefixOf (c :: s0) with
              | false => rfl
              | true => exact absurd hval hpid
            rw [replaceAllGo_cons_no_match _ _ _ _ _ hmatch']
            rw [countPos_cons_no_match _ _ _ hpid']
            have hrec := ih f (by omega) s0 (by simp at hlen; omega)
            have hhead : countPos (placeholder k')
                (c :: replaceAllGo (placeholder k) rep f s0)
              = (if (placeholder k').isPrefixOf
                    (c :: replaceAllGo (placeholder k) rep f s0) then 1 else 0)
                + countPos (placeholder k') (replaceAllGo (placeholder k) rep f s0) := rfl
            rw [hhead]
            cases hif : (placeholder k').isPrefixOf
                (c :: replaceAllGo (placeholder k) rep f s0) <;> simp [hif] <;> omega

/-- Helper: merging over a concatenated field list is merging in two stages. -/
theorem mergeTemplate_append (t : List Char) (a b : List (List Char × List Char)) :
    mergeTemplate t (a ++ b) = mergeTemplate (mergeTemplate t a) b := by
  simp [mergeTemplate, List.foldl_append]

/-- Helper: no substitution pass for brace-free keys distinct from `k'` can
lower the occurrence count of the placeholder of `k'`. -/
theorem countPos_mergeTemplate_ge (k' : List Char) (hk' : braceFree k' = true) :
    ∀ (contact : List (List Char × List Char)) (t : List Char),
      (∀ kv ∈ contact, kv.1 ≠ idKey → braceFree kv.1 = true ∧ kv.1 ≠ k') →
      countPos (placeholder k') t ≤ countPos (placeholder k') (mergeTemplate t contact) := by
  intro contact
  induction contact with
  | nil => intro t _; exact le_refl _
  | cons kv c' ih =>
    intro t hkeys
    have hstep : mergeTemplate t (kv :: c')
        = mergeTemplate
            (if kv.1 = idKey then t else replaceAll (placeholder kv.1) kv.2 t) c' := rfl
    rw [hstep]
    by_cases hid : kv.1 = idKey
    · rw [if_pos hid]
      exact ih t (fun kv2 h2 => hkeys kv2 (List.mem_cons_of_mem _ h2))
    · rw [if_neg hid]
      have hkv := hkeys kv (List.mem_cons_self _ _) hid
      have h1 : countPos (placeholder k') t
          ≤ countPos (placeholder k') (replaceAll (placeholder kv.1) kv.2 t) := by
        unfold replaceAll
        exact countPos_replaceAllGo_ge kv.1 k' kv.2 hkv.1 hk' hkv.2 t.length t (le_refl _)
      exact le_trans h1 (ih _ (fun kv2 h2 => hkeys kv2 (List.mem_cons_of_mem _ h2)))

/-- Helper: merging fields whose brace-free keys all differ from `k` leaves
the placeholder of `k` unchanged. -/
theorem mergeTemplate_keeps_placeholder (k : List Char) (hk : braceFree k = true) :
    ∀ c1 : List (List Char × List Char),
      (∀ kv ∈ c1, braceFree kv.1 = true ∧ kv.1 ≠ k) →
      mergeTemplate (placeholder k) c1 = placeholder k := by
  intro c1
  induction c1 with
  | nil => intro _; rfl
  | cons kv c' ih =>
    intro hkeys
    have hkv := hkeys kv (List.mem_cons_self _ _)
    have hstep : mergeTemplate (placeholder k) (kv :: c')
        = mergeTemplate
            (if kv.1 = idKey then placeholder k
             else replaceAll (placeholder kv.1) kv.2 (placeholder k)) c' := rfl
    rw [hstep]
    by_cases hid : kv.1 = idKey
    · rw [if_pos hid]
      exact ih (fun kv2 h2 => hkeys kv2 (List.mem_cons_of_mem _ h2))
    · rw [if_neg hid, replaceAll_placeholder_other kv.1 k kv.2 hkv.1 hk hkv.2]
      exact ih (fun kv2 h2 => hkeys kv2 (List.mem_cons_of_mem _ h2))

/-- Helper: a brace-free string is a fixed point of every merge pass. -/
theorem mergeTemplate_bfree_fixed (s : List Char) (hs : braceFree s = true) :
    ∀ c2 : List (List Char × List Char), mergeTemplate s c2 = s := by
  intro c2
  induction c2 with
  | nil => rfl
  | cons kv c' ih =>
    have hstep : mergeTemplate s (kv :: c')
        = mergeTemplate
            (if kv.1 = idKey then s else replaceAll (placeholder kv.1) kv.2 s) c' := rfl
    rw [hstep]
    by_cases hid : kv.1 = idKey
    · rw [if_pos hid]; exact ih
    · rw [if_neg hid, replaceAll_bfree_fixed kv.1 kv.2 s hs]; exact ih

/-- C10, counterexample: the claim quantifies over every template and contact,
but a contact field whose name itself contains braces can swallow an `id`
placeholder: with the field name `x{{id` (value empty), the template
`{{x{{id}}` — which contains one literal `{{id}}` occurrence — merges to the
empty string, so the occurrence does not remain. -/
theorem c10_id_substitution_counterexample :
    countPos (placeholder idKey) c10Template = 1 ∧
    countPos (placeholder idKey) (mergeTemplate c10Template c10Contact) = 0 := by
  decide

/-- C10, amended: for contacts whose field names are brace-free (as all CSV
column names are), the merge never substitutes the `id` field: every `{{id}}`
occurrence of the template survives into the output — the occurrence count of
the `id` placeholder never decreases — even though the contact has an `id`
value. -/
theorem c10_id_placeholder_survives (contact : List (List Char × List Char))
    (t : List Char) (hkeys : ∀ kv ∈ contact, braceFree kv.1 = true)
    (_hid : ∃ v, (idKey, v) ∈ contact) :
    countPos (placeholder idKey) t
      ≤ countPos (placeholder idKey) (mergeTemplate t contact) :=
  countPos_mergeTemplate_ge idKey (by decide) contact t
    (fun kv h2 hne => ⟨hkeys kv h2, hne⟩)

/-- C10, witness: the amended statement evaluated on a concrete contact and a
template holding one `id` placeholder. -/
theorem c10_id_placeholder_survives_witness :
    countPos (placeholder idKey) c10WitnessTemplate
      ≤ countPos (placeholder idKey) (mergeTemplate c10WitnessTemplate c3Contact) :=
  c10_id_placeholder_survives c3Contact c10WitnessTemplate (by decide) ⟨['1'], by decide⟩

/-- C3, counterexample: the claim says a placeholder naming a field the
contact does not have substitutes as the empty string and does not survive;
but `mergeTemplate` only iterates the contact's own keys, so the placeholder
of the absent field `company` survives verbatim (and the result is not
empty). -/
theorem c3_missing_field_counterexample :
    mergeTemplate (placeholder companyKey) c3Contact = placeholder companyKey ∧
    placeholder companyKey ≠ [] := by
  decide

/-- C3, amended: template merge substitutes the placeholder occurrences of
the contact's own fields other than `id` with the field's value — in
particular, for brace-free distinct field names and brace-free values, the
template consisting of a field's placeholder merges to exactly that field's
value — while a placeholder naming a field the contact does not have is not
replaced at all: it survives into the output (its occurrence count never
decreases) instead of substituting as the empty string. -/
theorem c3_merge_substitution_amended :
    (∀ (contact : List (List Char × List Char)) (k v : List Char),
      (k, v) ∈ contact → k ≠ idKey →
      (∀ kv ∈ contact, braceFree kv.1 = true) → braceFree v = true →
      (contact.map Prod.fst).Nodup →
      mergeTemplate (placeholder k) contact = v) ∧
    (∀ (contact : List (List Char × List Char)) (f t : List Char),
      (∀ kv ∈ contact, braceFree kv.1 = true) → braceFree f = true →
      (∀ kv ∈ contact, kv.1 ≠ f) →
      countPos (placeholder f) t ≤ countPos (placeholder f) (mergeTemplate t contact)) := by
  constructor
  · intro contact k v hmem hkid hkeys hv hnodup
    obtain ⟨c1, c2, rfl⟩ := List.append_of_mem hmem
    have hk : braceFree k = true := hkeys (k, v) hmem
    have hmap : (c1 ++ (k, v) :: c2).map Prod.fst
        = c1.map Prod.fst ++ k :: c2.map Prod.fst := by simp
    rw [hmap] at hnodup
    have hsplit := List.nodup_append.mp hnodup
    have hk_c1 : ∀ kv ∈ c1, kv.1 ≠ k := by
      intro kv h heq
      exact hsplit.2.2 (List.mem_map_of_mem Prod.fst h)
        (by rw [heq]; exact List.mem_cons_self _ _)
    have hk_c2 : ∀ kv ∈ c2, kv.1 ≠ k := by
      intro kv h heq
      exact (List.nodup_cons.mp hsplit.2.1).1
        (by rw [← heq]; exact List.mem_map_of_mem Prod.fst h)
    rw [mergeTemplate_append]
    rw [mergeTemplate_keeps_placeholder k hk c1
      (fun kv h => ⟨hkeys kv (List.mem_append_left _ h), hk_c1 kv h⟩)]
    have hstep : mergeTemplate (placeholder k) ((k, v) :: c2)
        = mergeTemplate
            (if k = idKey then placeholder k
             else replaceAll (placeholder k) v (placeholder k)) c2 := rfl
    rw [hstep, if_neg hkid, replaceAll_placeholder_self]
    exact mergeTemplate_bfree_fixed v hv c2
  · intro contact f t hkeys hf hnf
    exact countPos_mergeTemplate_ge f hf contact t
      (fun kv h _ => ⟨hkeys kv h, hnf kv h⟩)

/-- C3, witness: merging `{{name}}` against the concrete contact yields `Ann`,
and the `{{company}}` placeholder of a field the contact lacks survives. -/
theorem c3_merge_amended_witness :
    mergeTemplate (placeholder nameKey) c3Contact = ['A', 'n', 'n'] ∧
    countPos (placeholder companyKey) (placeholder companyKey)
      ≤ countPos (placeholder companyKey)
          (mergeTemplate (placeholder companyKey) c3Contact) := by
  constructor
  · exact c3_merge_substitution_amended.1 c3Contact nameKey ['A', 'n', 'n']
      (by decide) (by decide) (by decide) (by decide) (by decide)
  · exact c3_merge_substitution_amended.2 c3Contact companyKey (placeholder companyKey)
      (by decide) (by decide) (by decide)

/-! ## Rate-limit governor retries (claim C6) -/

/-- C6: a work function that fails with a throttling error on its first two
invocations and succeeds on the third makes `executeWithRetry` with
`maxRetries ≥ 2` return the third invocation's value after exactly 3
invocations of the work function. -/
theorem c6_throttled_twice_then_success {α : Type} (work : Nat → Except JsError α)
    (maxRetries : Nat) (v : α) (e0 e1 : JsError)
    (hmr : 2 ≤ maxRetries)
    (hw0 : work 0 = .error e0) (h0 : isRateLimitError e0 = true)
    (hw1 : work 1 = .error e1) (h1 : isRateLimitError e1 = true)
    (hw2 : work 2 = .ok v) :
    executeWithRetry work maxRetries = (.ok v, 3) := by
  obtain ⟨m, rfl⟩ : ∃ m, maxRetries = m + 2 := ⟨maxRetries - 2, by omega⟩
  show executeWithRetryGo work 0 (m + 2) = (.ok v, 3)
  have s1 : executeWithRetryGo work 0 (m + 2) = executeWithRetryGo work 1 (m + 1) := by
    simp only [executeWithRetryGo, hw0, h0, Bool.true_or, if_true]
  have s2 : executeWithRetryGo work 1 (m + 1) = executeWithRetryGo work 2 m := by
    simp only [executeWithRetryGo, hw1, h1, Bool.true_or, if_true]
  rw [s1, s2]
  cases m with
  | zero => simp only [executeWithRetryGo, hw2]
  | succ m' => simp only [executeWithRetryGo, hw2]

/-- C6, witness: the concrete twice-throttled work function with
`maxRetries = 2` returns 42 after exactly 3 invocations. -/
theorem c6_throttled_witness : executeWithRetry c6Work 2 = (.ok 42, 3) :=
  c6_throttled_twice_then_success c6Work 2 42 c6ThrottleError c6ThrottleError
    (by decide) (by rfl) (by decide) (by rfl) (by decide) (by rfl)

/-! ## Attachment uploader partial failure (claim C9) -/

/-- Helper: flattening the chunking recovers the original list. -/
theorem chunkArrayGo_flatten {α : Type} (size : Nat) :
    ∀ (fuel : Nat) (l : List α), (chunkArrayGo size fuel l).flatten = l := by
  intro fuel
  induction fuel with
  | zero =>
    intro l
    cases l with
    | nil => rfl
    | cons a l' => simp [chunkArrayGo]
  | succ f ih =>
    intro l
    cases l with
    | nil => rfl
    | cons a l' =>
      simp only [chunkArrayGo, List.isEmpty_cons, if_false]
      simp [ih]

/-- Helper: the grouped fold of the uploader is a plain map over the ids. -/
theorem attachFileToMultipleDrafts_eq_map (attachFails : String → Option String)
    (messageIds : List String) :
    attachFileToMultipleDrafts attachFails messageIds
      = messageIds.map (fun messageId =>
          match attachFails messageId with
          | none => { messageId := messageId, success := true, error := none }
          | some e =>
            { messageId := messageId, success := false, error := some e }) := by
  have hfold : ∀ (chunks : List (List String)) (acc : List AttachResult),
      chunks.foldl
        (fun results chunk =>
          results ++ chunk.map (fun messageId =>
            match attachFails messageId with
            | none => { messageId := messageId, success := true, error := none }
            | some e =>
              { messageId := messageId, success := false, error := some e }))
        acc
      = acc ++ (chunks.flatten).map (fun messageId =>
          match attachFails messageId with
          | none => { messageId := messageId, success := true, error := none }
          | some e =>
            { messageId := messageId, success := false, error := some e }) := by
    intro chunks
    induction chunks with
    | nil => intro acc; simp
    | cons c cs ih =>
      intro acc
      simp only [List.foldl_cons, ih, List.flatten_cons, List.map_append,
        List.append_assoc]
  show (chunkArray messageIds 3).foldl _ [] = _
  rw [hfold, List.nil_append]
  unfold chunkArray
  rw [chunkArrayGo_flatten]

/-- C9: `attachFileToMultipleDrafts` absorbs per-message upload failures into
data (it is a total function of the per-message outcomes, never an
exception): for every list of message identifiers it returns exactly one
result entry per input identifier, in input order, and an entry reports
`success = false` exactly when that identifier's upload failed. -/
theorem c9_attach_one_result_per_id (attachFails : String → Option String)
    (messageIds : List String) :
    (attachFileToMultipleDrafts attachFails messageIds).length = messageIds.length ∧
    (attachFileToMultipleDrafts attachFails messageIds).map
        (fun r => r.messageId) = messageIds ∧
    ∀ r ∈ attachFileToMultipleDrafts attachFails messageIds,
      (r.success = true ↔ attachFails r.messageId = none) := by
  rw [attachFileToMultipleDrafts_eq_map]
  refine ⟨by simp, ?_, ?_⟩
  · induction messageIds with
    | nil => rfl
    | cons m ms ih =>
      cases hm : attachFails m <;> simp only [List.map_cons, hm] <;>
        exact congrArg (m :: ·) ih
  · intro r hr
    obtain ⟨m, _, rfl⟩ := List.mem_map.mp hr
    cases hm : attachFails m with
    | none => simp [hm]
    | some e => simp [hm]

/-! ## Batch dispatcher result bookkeeping (claim C5) -/

/-- Helper: an in-place update that keeps `contactId` keeps the id column. -/
theorem updateResult_map_contactId (cid : List Char)
    (f : ProcessingResult → ProcessingResult)
    (hf : ∀ r, (f r).contactId = r.contactId) :
    ∀ res : List ProcessingResult,
      (updateResult res cid f).map (fun r => r.contactId)
        = res.map (fun r => r.contactId) := by
  intro res
  induction res with
  | nil => rfl
  | cons r rs ih =>
    by_cases h : r.contactId = cid
    · simp [updateResult, h, hf]
    · simp [updateResult, h, ih]

/-- Helper: head update when the head matches. -/
theorem updateResult_cons_pos (r : ProcessingResult) (rs : List ProcessingResult)
    (cid : List Char) (f : ProcessingResult → ProcessingResult)
    (h : r.contactId = cid) : updateResult (r :: rs) cid f = f r :: rs := by
  simp [updateResult, h]

/-- Helper: head preservation when the head does not match. -/
theorem updateResult_cons_neg (r : ProcessingResult) (rs : List ProcessingResult)
    (cid : List Char) (f : ProcessingResult → ProcessingResult)
    (h : ¬ r.contactId = cid) :
    updateResult (r :: rs) cid f = r :: updateResult rs cid f := by
  simp [updateResult, h]

/-- Helper: an update keyed by one contact id leaves lookups of any other
contact id unchanged. -/
theorem updateResult_find_ne (cid q : List Char)
    (f : ProcessingResult → ProcessingResult)
    (hf : ∀ r, (f r).contactId = r.contactId) (hq : q ≠ cid) :
    ∀ res : List ProcessingResult,
      (updateResult res cid f).find? (fun r => r.contactId == q)
        = res.find? (fun r => r.contactId == q) := by
  intro res
  induction res with
  | nil => rfl
  | cons r rs ih =>
    by_cases h : r.contactId = cid
    · have hcq : ¬ (cid = q) := fun hh => hq hh.symm
      rw [updateResult_cons_pos r rs cid f h]
      rw [List.find?_cons_of_neg _ (by simp [hf, h, hcq]),
        List.find?_cons_of_neg _ (by simp [h, hcq])]
    · rw [updateResult_cons_neg r rs cid f h]
      by_cases hrq : r.contactId = q
      · rw [List.find?_cons_of_pos _ (by simp [hrq]),
          List.find?_cons_of_pos _ (by simp [hrq])]
      · rw [List.find?_cons_of_neg _ (by simp [hrq]),
          List.find?_cons_of_neg _ (by simp [hrq]), ih]

/-- Helper: an update keyed by a present contact id rewrites exactly the found
entry. -/
theorem updateResult_find_hit (cid : List Char)
    (f : ProcessingResult → ProcessingResult)
    (hf : ∀ r, (f r).contactId = r.contactId) :
    ∀ (res : List ProcessingResult) (r0 : ProcessingResult),
      res.find? (fun r => r.contactId == cid) = some r0 →
      (updateResult res cid f).find? (fun r => r.contactId == cid) = some (f r0) := by
  intro res
  induction res with
  | nil => intro r0 h; simp at h
  | cons r rs ih =>
    intro r0 hfind
    by_cases h : r.contactId = cid
    · rw [List.find?_cons_of_pos _ (by simp [h])] at hfind
      cases hfind
      rw [updateResult_cons_pos r rs cid f h]
      rw [List.find?_cons_of_pos _ (by simp [hf, h])]
    · rw [List.find?_cons_of_neg _ (by simp [h])] at hfind
      rw [updateResult_cons_neg r rs cid f h]
      rw [List.find?_cons_of_neg _ (by simp [h]), ih r0 hfind]

/-- Helper: a contact id present in the id column is found. -/
theorem find_some_of_mem_ids :
    ∀ (res : List ProcessingResult) (q : List Char),
      q ∈ res.map (fun r => r.contactId) →
      ∃ r0, res.find? (fun r => r.contactId == q) = some r0 := by
  intro res
  induction res with
  | nil => intro q h; simp at h
  | cons r rs ih =>
    intro q hq
    by_cases h : r.contactId = q
    · exact ⟨r, List.find?_cons_of_pos _ (by simp [h])⟩
    · rw [List.map_cons, List.mem_cons] at hq
      rcases hq with hq | hq
      · exact absurd hq.symm h
      · obtain ⟨r0, hr0⟩ := ih q hq
        exact ⟨r0, by rw [List.find?_cons_of_neg _ (by simp [h]), hr0]⟩

/-- Helper: with pairwise-distinct contact ids, looking an entry's own id up
returns that entry. -/
theorem find_self_of_nodup :
    ∀ res : List ProcessingResult, (res.map (fun r => r.contactId)).Nodup →
      ∀ r ∈ res, res.find? (fun x => x.contactId == r.contactId) = some r := by
  intro res
  induction res with
  | nil => intro _ r hr; simp at hr
  | cons r0 rs ih =>
    intro hnodup r hr
    rcases List.mem_cons.mp hr with rfl | hr
    · exact List.find?_cons_of_pos _ (by simp)
    · rw [List.map_cons] at hnodup
      have hnd := List.nodup_cons.mp hnodup
      have hmem : r.contactId ∈ rs.map (fun x => x.contactId) :=
        List.mem_map_of_mem _ hr
      have hne : r0.contactId ≠ r.contactId := fun he => hnd.1 (he ▸ hmem)
      rw [List.find?_cons_of_neg _ (by simp [hne])]
      exact ih hnd.2 r hr

/-- Helper: a fold of keyed updates keeps the id column. -/
theorem foldUpdate_map (g : ProcessingResult → ProcessingResult)
    (hg : ∀ r, (g r).contactId = r.contactId) :
    ∀ (bs : List Contact) (res : List ProcessingResult),
      (bs.foldl (fun res c => updateResult res (contactId c) g) res).map
          (fun r => r.contactId)
        = res.map (fun r => r.contactId) := by
  intro bs
  induction bs with
  | nil => intro res; rfl
  | cons c bs' ih =>
    intro res
    show ((bs'.foldl _ (updateResult res (contactId c) g)).map _) = _
    rw [ih, updateResult_map_contactId _ g hg]

/-- Helper: a fold of keyed updates leaves lookups of ids outside the batch
unchanged. -/
theorem foldUpdate_find_ne (g : ProcessingResult → ProcessingResult)
    (hg : ∀ r, (g r).contactId = r.contactId) :
    ∀ (bs : List Contact) (res : List ProcessingResult) (q : List Char),
      q ∉ bs.map contactId →
      (bs.foldl (fun res c => updateResult res (contactId c) g) res).find?
          (fun r => r.contactId == q)
        = res.find? (fun r => r.contactId == q) := by
  intro bs
  induction bs with
  | nil => intro res q _; rfl
  | cons c bs' ih =>
    intro res q hq
    rw [List.map_cons, List.mem_cons] at hq
    push_neg at hq
    show (bs'.foldl _ (updateResult res (contactId c) g)).find? _ = _
    rw [ih _ q hq.2, updateResult_find_ne _ q g hg hq.1]

/-- Helper: a fold of keyed updates over a batch with pairwise-distinct,
present ids rewrites every batch member's entry through the updater. -/
theorem foldUpdate_find_hit (g : ProcessingResult → ProcessingResult)
    (hg : ∀ r, (g r).contactId = r.contactId) :
    ∀ (bs : List Contact) (res : List ProcessingResult),
      (bs.map contactId).Nodup →
      (∀ c ∈ bs, contactId c ∈ res.map (fun r => r.contactId)) →
      ∀ c ∈ bs, ∃ r0,
        (bs.foldl (fun res c => updateResult res (contactId c) g) res).find?
            (fun r => r.contactId == contactId c)
          = some (g r0) := by
  intro bs
  induction bs with
  | nil => intro res _ _ c hc; simp at hc
  | cons c0 bs' ih =>
    intro res hnodup hpres c hc
    rw [List.map_cons] at hnodup
    have hnodup' := List.nodup_cons.mp hnodup
    rcases List.mem_cons.mp hc with rfl | hc
    · obtain ⟨r0, hr0⟩ := find_some_of_mem_ids res (contactId c)
        (hpres c (List.mem_cons_self _ _))
      refine ⟨r0, ?_⟩
      show (bs'.foldl _ (updateResult res (contactId c) g)).find? _ = _
      rw [foldUpdate_find_ne g hg bs' _ (contactId c) hnodup'.1]
      exact updateResult_find_hit _ g hg res r0 hr0
    · show ∃ r0, (bs'.foldl _ (updateResult res (contactId c0) g)).find? _ = _
      refine ih (updateResult res (contactId c0) g) hnodup'.2 ?_ c hc
      intro c2 hc2
      rw [updateResult_map_contactId _ g hg]
      exact hpres c2 (List.mem_cons_of_mem _ hc2)

/-- Helper: one forEach step keeps the id column. -/
theorem processBatchStep_map (batchResults : List DraftResult)
    (acc : List ProcessingResult × List String) (ic : Nat × Contact) :
    (processBatchStep batchResults acc ic).1.map (fun r => r.contactId)
      = acc.1.map (fun r => r.contactId) := by
  cases hfind : acc.1.find? (fun r => r.contactId == contactId ic.2) with
  | none =>
    cases hidx : batchResults[ic.1]? with
    | none => simp [processBatchStep, hfind, hidx]
    | some br => simp [processBatchStep, hfind, hidx]
  | some r0 =>
    cases hidx : batchResults[ic.1]? with
    | none => simp [processBatchStep, hfind, hidx]
    | some br =>
      by_cases hs : br.success = true
      · simp only [processBatchStep, hfind, hidx, hs, if_true]
        exact updateResult_map_contactId (contactId ic.2)
          (fun r => { r with status := .completed, messageId := some br.id })
          (fun r => rfl) acc.1
      · simp only [processBatchStep, hfind, hidx]
        rw [if_neg hs]
        exact updateResult_map_contactId (contactId ic.2)
          (fun r => { r with status := .failed, error := some (jsOrStr br.error "Unknown error") })
          (fun r => rfl) acc.1

/-- Helper: one forEach step leaves other contacts' entries unchanged. -/
theorem processBatchStep_find_ne (batchResults : List DraftResult)
    (acc : List ProcessingResult × List String) (ic : Nat × Contact) (q : List Char)
    (hq : q ≠ contactId ic.2) :
    (processBatchStep batchResults acc ic).1.find? (fun r => r.contactId == q)
      = acc.1.find? (fun r => r.contactId == q) := by
  cases hfind : acc.1.find? (fun r => r.contactId == contactId ic.2) with
  | none =>
    cases hidx : batchResults[ic.1]? with
    | none => simp [processBatchStep, hfind, hidx]
    | some br => simp [processBatchStep, hfind, hidx]
  | some r0 =>
    cases hidx : batchResults[ic.1]? with
    | none => simp [processBatchStep, hfind, hidx]
    | some br =>
      by_cases hs : br.success = true
      · simp only [processBatchStep, hfind, hidx, hs, if_true]
        exact updateResult_find_ne (contactId ic.2) q
          (fun r => { r with status := .completed, messageId := some br.id })
          (fun r => rfl) hq acc.1
      · simp only [processBatchStep, hfind, hidx]
        rw [if_neg hs]
        exact updateResult_find_ne (contactId ic.2) q
          (fun r => { r with status := .failed, error := some (jsOrStr br.error "Unknown error") })
          (fun r => rfl) hq acc.1

/-- Helper: one forEach step with a present entry and a present per-item
response leaves that contact's entry terminal. -/
theorem processBatchStep_hit (batchResults : List DraftResult)
    (acc : List ProcessingResult × List String) (ic : Nat × Contact)
    (r0 : ProcessingResult) (br : DraftResult)
    (hfind : acc.1.find? (fun r => r.contactId == contactId ic.2) = some r0)
    (hidx : batchResults[ic.1]? = some br) :
    ∃ r, (processBatchStep batchResults acc ic).1.find?
        (fun x => x.contactId == contactId ic.2) = some r ∧ terminalStatus r := by
  by_cases hs : br.success = true
  · refine ⟨{ r0 with status := .completed, messageId := some br.id }, ?_, Or.inl rfl⟩
    simp only [processBatchStep, hfind, hidx, hs, if_true]
    exact updateResult_find_hit (contactId ic.2)
      (fun r => { r with status := .completed, messageId := some br.id })
      (fun r => rfl) acc.1 r0 hfind
  · refine ⟨{ r0 with status := .failed, error := some (jsOrStr br.error "Unknown error") }, ?_, Or.inr rfl⟩
    simp only [processBatchStep, hfind, hidx]
    rw [if_neg hs]
    exact updateResult_find_hit (contactId ic.2)
      (fun r => { r with status := .failed, error := some (jsOrStr br.error "Unknown error") })
      (fun r => rfl) acc.1 r0 hfind

/-- Helper: the whole forEach fold of one group: the id column is kept, other
contacts' entries are untouched, and every group member's entry is terminal
afterwards (given distinct, present ids and enough per-item responses). -/
theorem processBatchOkFold_spec (batchResults : List DraftResult) :
    ∀ (bs : List Contact) (n : Nat) (acc : List ProcessingResult × List String),
      (bs.map contactId).Nodup →
      (∀ c ∈ bs, contactId c ∈ acc.1.map (fun r => r.contactId)) →
      n + bs.length ≤ batchResults.length →
      ((List.enumFrom n bs).foldl (processBatchStep batchResults) acc).1.map
          (fun r => r.contactId) = acc.1.map (fun r => r.contactId) ∧
      (∀ q, q ∉ bs.map contactId →
        ((List.enumFrom n bs).foldl (processBatchStep batchResults) acc).1.find?
            (fun r => r.contactId == q)
          = acc.1.find? (fun r => r.contactId == q)) ∧
      (∀ c ∈ bs, ∃ r,
        ((List.enumFrom n bs).foldl (processBatchStep batchResults) acc).1.find?
            (fun x => x.contactId == contactId c) = some r ∧ terminalStatus r) := by
  intro bs
  induction bs with
  | nil =>
    intro n acc _ _ _
    exact ⟨rfl, fun q _ => rfl, fun c hc => absurd hc (by simp)⟩
  | cons c0 bs' ih =>
    intro n acc hnodup hpres hlen
    rw [List.map_cons] at hnodup
    have hnd := List.nodup_cons.mp hnodup
    obtain ⟨r0, hr0⟩ := find_some_of_mem_ids acc.1 (contactId c0)
      (hpres c0 (List.mem_cons_self _ _))
    have hlt : n < batchResults.length := by
      simp at hlen
      omega
    have hidx : batchResults[n]? = some batchResults[n] := List.getElem?_eq_getElem hlt
    have hmap1 : (processBatchStep batchResults acc (n, c0)).1.map (fun r => r.contactId)
        = acc.1.map (fun r => r.contactId) := processBatchStep_map _ _ _
    have hunfold : (List.enumFrom n (c0 :: bs')).foldl (processBatchStep batchResults) acc
        = (List.enumFrom (n + 1) bs').foldl (processBatchStep batchResults)
            (processBatchStep batchResults acc (n, c0)) := rfl
    obtain ⟨ihmap, ihframe, ihhit⟩ := ih (n + 1)
      (processBatchStep batchResults acc (n, c0)) hnd.2
      (fun c hc => by rw [hmap1]; exact hpres c (List.mem_cons_of_mem _ hc))
      (by simp at hlen ⊢; omega)
    refine ⟨?_, ?_, ?_⟩
    · rw [hunfold, ihmap, hmap1]
    · intro q hq
      rw [List.map_cons, List.mem_cons] at hq
      push_neg at hq
      rw [hunfold, ihframe q hq.2]
      exact processBatchStep_find_ne _ _ _ q hq.1
    · intro c hc
      rcases List.mem_cons.mp hc with rfl | hc
      · obtain ⟨r, hr, hterm⟩ :=
          processBatchStep_hit batchResults acc (n, c) r0 _ hr0 hidx
        refine ⟨r, ?_, hterm⟩
        rw [hunfold, ihframe (contactId c) hnd.1, hr]
      · obtain ⟨r, hr, hterm⟩ := ihhit c hc
        refine ⟨r, ?_, hterm⟩
        rw [hunfold, hr]

/-- Helper: one group run through `processBatch` keeps the id column, leaves
other contacts' entries untouched, and leaves every group member's entry
terminal — whatever the transport outcome and the response list are. -/
theorem processBatch_spec (resps : Except String (List BatchResp))
    (st tt bt : List Char) (batch : List Contact) (results : List ProcessingResult)
    (hnodup : (batch.map contactId).Nodup)
    (hpres : ∀ c ∈ batch, contactId c ∈ results.map (fun r => r.contactId)) :
    (processBatch resps st tt bt batch results).1.map (fun r => r.contactId)
      = results.map (fun r => r.contactId) ∧
    (∀ q, q ∉ batch.map contactId →
      (processBatch resps st tt bt batch results).1.find? (fun r => r.contactId == q)
        = results.find? (fun r => r.contactId == q)) ∧
    (∀ c ∈ batch, ∃ r,
      (processBatch resps st tt bt batch results).1.find?
          (fun x => x.contactId == contactId c) = some r ∧ terminalStatus r) := by
  have hmap1 : (batch.foldl
      (fun res c => updateResult res (contactId c)
        (fun r => { r with status := .processing })) results).map (fun r => r.contactId)
      = results.map (fun r => r.contactId) :=
    foldUpdate_map (fun r => { r with status := .processing }) (fun r => rfl)
      batch results
  cases resps with
  | error e =>
    have hPB : processBatch (.error e) st tt bt batch results
        = (batch.foldl
            (fun res c => updateResult res (contactId c)
              (fun r => { r with status := .failed, error := some e }))
            (batch.foldl
              (fun res c => updateResult res (contactId c)
                (fun r => { r with status := .processing })) results), []) := rfl
    rw [hPB]
    refine ⟨?_, ?_, ?_⟩
    · rw [foldUpdate_map (fun r => { r with status := .failed, error := some e })
        (fun r => rfl) batch _, hmap1]
    · intro q hq
      rw [foldUpdate_find_ne (fun r => { r with status := .failed, error := some e })
        (fun r => rfl) batch _ q hq,
        foldUpdate_find_ne (fun r => { r with status := .processing })
          (fun r => rfl) batch _ q hq]
    · intro c hc
      obtain ⟨r0, hr0⟩ := foldUpdate_find_hit
        (fun r => { r with status := .failed, error := some e }) (fun r => rfl) batch _
        hnodup (fun c2 hc2 => by rw [hmap1]; exact hpres c2 hc2) c hc
      exact ⟨_, hr0, Or.inr rfl⟩
  | ok rs =>
    have hPB : processBatch (.ok rs) st tt bt batch results
        = (List.enumFrom 0 batch).foldl
            (processBatchStep
              (createBatchDrafts (batch.map (buildDraft st tt bt)) rs))
            ((batch.foldl
              (fun res c => updateResult res (contactId c)
                (fun r => { r with status := .processing })) results), []) := rfl
    rw [hPB]
    have hlen : 0 + batch.length
        ≤ (createBatchDrafts (batch.map (buildDraft st tt bt)) rs).length := by
      simp [createBatchDrafts]
    obtain ⟨hm, hf, hh⟩ := processBatchOkFold_spec
      (createBatchDrafts (batch.map (buildDraft st tt bt)) rs) batch 0
      ((batch.foldl
        (fun res c => updateResult res (contactId c)
          (fun r => { r with status := .processing })) results), [])
      hnodup (fun c hc => by rw [hmap1]; exact hpres c hc) hlen
    refine ⟨?_, ?_, hh⟩
    · rw [hm, hmap1]
    · intro q hq
      rw [hf q hq, foldUpdate_find_ne (fun r => { r with status := .processing })
        (fun r => rfl) batch _ q hq]

/-- Helper: the fold over all groups: id column kept, entries outside the
groups untouched, every grouped contact's entry terminal (given globally
distinct, present ids). -/
theorem processBatchesFold_spec (responses : Nat → Except String (List BatchResp))
    (st tt bt : List Char) :
    ∀ (bs : List (List Contact)) (n : Nat)
      (acc : List ProcessingResult × List String),
      (bs.flatten.map contactId).Nodup →
      (∀ c ∈ bs.flatten, contactId c ∈ acc.1.map (fun r => r.contactId)) →
      ((List.enumFrom n bs).foldl (processBatchesStep responses st tt bt) acc).1.map
          (fun r => r.contactId) = acc.1.map (fun r => r.contactId) ∧
      (∀ q, q ∉ bs.flatten.map contactId →
        ((List.enumFrom n bs).foldl (processBatchesStep responses st tt bt) acc).1.find?
            (fun r => r.contactId == q)
          = acc.1.find? (fun r => r.contactId == q)) ∧
      (∀ c ∈ bs.flatten, ∃ r,
        ((List.enumFrom n bs).foldl (processBatchesStep responses st tt bt) acc).1.find?
            (fun x => x.contactId == contactId c) = some r ∧ terminalStatus r) := by
  intro bs
  induction bs with
  | nil =>
    intro n acc _ _
    exact ⟨rfl, fun q _ => rfl, fun c hc => absurd hc (by simp)⟩
  | cons b bs' ih =>
    intro n acc hnodup hpres
    rw [List.flatten_cons, List.map_append] at hnodup
    have hsplit := List.nodup_append.mp hnodup
    have hpresb : ∀ c ∈ b, contactId c ∈ acc.1.map (fun r => r.contactId) :=
      fun c hc => hpres c (by rw [List.flatten_cons]; exact List.mem_append_left _ hc)
    obtain ⟨pbm, pbf, pbh⟩ := processBatch_spec (responses n) st tt bt b acc.1
      hsplit.1 hpresb
    have hunfold : (List.enumFrom n (b :: bs')).foldl
        (processBatchesStep responses st tt bt) acc
        = (List.enumFrom (n + 1) bs').foldl (processBatchesStep responses st tt bt)
            ((processBatch (responses n) st tt bt b acc.1).1,
             acc.2 ++ (processBatch (responses n) st tt bt b acc.1).2) := rfl
    obtain ⟨ihm, ihf, ihh⟩ := ih (n + 1)
      ((processBatch (responses n) st tt bt b acc.1).1,
       acc.2 ++ (processBatch (responses n) st tt bt b acc.1).2)
      hsplit.2.1
      (fun c hc => by
        show contactId c ∈ (processBatch (responses n) st tt bt b acc.1).1.map _
        rw [pbm]
        exact hpres c (by rw [List.flatten_cons]; exact List.mem_append_right _ hc))
    refine ⟨?_, ?_, ?_⟩
    · rw [hunfold, ihm, pbm]
    · intro q hq
      rw [List.flatten_cons, List.map_append, List.mem_append] at hq
      push_neg at hq
      rw [hunfold, ihf q hq.2, pbf q hq.1]
    · intro c hc
      rw [List.flatten_cons, List.mem_append] at hc
      rcases hc with hc | hc
      · obtain ⟨r, hr, hterm⟩ := pbh c hc
        refine ⟨r, ?_, hterm⟩
        have hcnot : contactId c ∉ bs'.flatten.map contactId := fun hmem =>
          hsplit.2.2 (List.mem_map_of_mem _ hc) hmem
        rw [hunfold, ihf (contactId c) hcnot, hr]
      · obtain ⟨r, hr, hterm⟩ := ihh c hc
        exact ⟨r, by rw [hunfold, hr], hterm⟩

/-- Helper: an update keyed by message id keeps the id column. -/
theorem updateByMessageId_map_contactId (mid : String)
    (g : ProcessingResult → ProcessingResult)
    (hg : ∀ r, (g r).contactId = r.contactId) :
    ∀ res : List ProcessingResult,
      (updateByMessageId res mid g).map (fun r => r.contactId)
        = res.map (fun r => r.contactId) := by
  intro res
  induction res with
  | nil => rfl
  | cons r rs ih =>
    by_cases h : r.messageId = some mid
    · simp [updateByMessageId, h, hg]
    · simp [updateByMessageId, h, ih]

/-- Helper: an update keyed by message id whose updater preserves a property
of every entry it touches preserves that property across the list. -/
theorem updateByMessageId_forall (mid : String)
    (g : ProcessingResult → ProcessingResult) (P : ProcessingResult → Prop)
    (hgP : ∀ r, P (g r)) :
    ∀ res : List ProcessingResult, (∀ r ∈ res, P r) →
      ∀ r ∈ updateByMessageId res mid g, P r := by
  intro res
  induction res with
  | nil => intro _ r hr; simp [updateByMessageId] at hr
  | cons r0 rs ih =>
    intro hall r hr
    by_cases h : r0.messageId = some mid
    · rw [show updateByMessageId (r0 :: rs) mid g = g r0 :: rs from by
        simp [updateByMessageId, h]] at hr
      rcases List.mem_cons.mp hr with rfl | hr
      · exact hgP r0
      · exact hall r (List.mem_cons_of_mem _ hr)
    · rw [show updateByMessageId (r0 :: rs) mid g = r0 :: updateByMessageId rs mid g from by
        simp [updateByMessageId, h]] at hr
      rcases List.mem_cons.mp hr with rfl | hr
      · exact hall _ (List.mem_cons_self _ _)
      · exact ih (fun r2 h2 => hall r2 (List.mem_cons_of_mem _ h2)) r hr

/-- Helper: the attachment pass keeps the id column and keeps every entry
terminal (it only ever downgrades entries to `failed`). -/
theorem attachFilesToDrafts_spec (attachFails : String → Option String)
    (messageIds : List String) (res : List ProcessingResult) :
    (attachFilesToDrafts attachFails messageIds res).map (fun r => r.contactId)
      = res.map (fun r => r.contactId) ∧
    ((∀ r ∈ res, terminalStatus r) →
      ∀ r ∈ attachFilesToDrafts attachFails messageIds res, terminalStatus r) := by
  have haux : ∀ (ars : List AttachResult) (res0 : List ProcessingResult),
      (ars.foldl
        (fun res ar =>
          if ar.success then res
          else updateByMessageId res ar.messageId
            (fun r => { r with status := .failed,
                               error := some (jsOrStr ar.error "Attachment failed") }))
        res0).map (fun r => r.contactId) = res0.map (fun r => r.contactId) ∧
      ((∀ r ∈ res0, terminalStatus r) →
        ∀ r ∈ ars.foldl
          (fun res ar =>
            if ar.success then res
            else updateByMessageId res ar.messageId
              (fun r => { r with status := .failed,
                                 error := some (jsOrStr ar.error "Attachment failed") }))
          res0, terminalStatus r) := by
    intro ars
    induction ars with
    | nil => intro res0; exact ⟨rfl, fun h => h⟩
    | cons ar ars' ih =>
      intro res0
      by_cases hs : ar.success = true
      · constructor
        · show (ars'.foldl _ (if ar.success then res0 else _)).map _ = _
          rw [if_pos hs]
          exact (ih res0).1
        · intro hall
          show ∀ r ∈ ars'.foldl _ (if ar.success then res0 else _), _
          rw [if_pos hs]
          exact (ih res0).2 hall
      · constructor
        · show (ars'.foldl _ (if ar.success then res0 else _)).map _ = _
          rw [if_neg hs]
          rw [(ih _).1]
          exact updateByMessageId_map_contactId ar.messageId
            (fun r => { r with status := .failed, error := some (jsOrStr ar.error "Attachment failed") })
            (fun r => rfl) res0
        · intro hall
          show ∀ r ∈ ars'.foldl _ (if ar.success then res0 else _), _
          rw [if_neg hs]
          refine (ih _).2 ?_
          exact updateByMessageId_forall ar.messageId _ terminalStatus
            (fun r => Or.inr rfl) res0 hall
  by_cases hempty : messageIds.isEmpty = true
  · constructor
    · show (if messageIds.isEmpty then res else _).map _ = _
      rw [if_pos hempty]
    · intro hall
      show ∀ r ∈ (if messageIds.isEmpty then res else _), _
      rw [if_pos hempty]
      exact hall
  · constructor
    · show (if messageIds.isEmpty then res else _).map _ = _
      rw [if_neg hempty]
      exact (haux _ res).1
    · intro hall
      show ∀ r ∈ (if messageIds.isEmpty then res else _), _
      rw [if_neg hempty]
      exact (haux _ res).2 hall

/-- Helper: when every present id's lookup is terminal and ids are pairwise
distinct, every entry is terminal. -/
theorem all_terminal_of_hits (res : List ProcessingResult)
    (hnodup : (res.map (fun r => r.contactId)).Nodup)
    (hhits : ∀ q ∈ res.map (fun r => r.contactId),
      ∃ r, res.find? (fun x => x.contactId == q) = some r ∧ terminalStatus r) :
    ∀ r ∈ res, terminalStatus r := by
  intro r hr
  obtain ⟨r', hr', hterm⟩ := hhits r.contactId (List.mem_map_of_mem _ hr)
  rw [find_self_of_nodup res hnodup r hr] at hr'
  cases hr'
  exact hterm

/-- Helper: `processBatchesInParallel` keeps the id column and leaves every
grouped contact's entry terminal. -/
theorem processBatchesInParallel_spec (responses : Nat → Except String (List BatchResp))
    (templateContent : List Char) (batches : List (List Contact))
    (results0 : List ProcessingResult)
    (hnodup : (batches.flatten.map contactId).Nodup)
    (hpres : ∀ c ∈ batches.flatten,
      contactId c ∈ results0.map (fun r => r.contactId)) :
    (processBatchesInParallel responses templateContent batches results0).1.map
        (fun r => r.contactId) = results0.map (fun r => r.contactId) ∧
    (∀ c ∈ batches.flatten, ∃ r,
      (processBatchesInParallel responses templateContent batches results0).1.find?
          (fun x => x.contactId == contactId c) = some r ∧ terminalStatus r) := by
  have hPBP : processBatchesInParallel responses templateContent batches results0
      = (List.enumFrom 0 batches).foldl
          (processBatchesStep responses
            ((parseTemplateSections templateContent).subject.getD [])
            ((parseTemplateSections templateContent).toLine.getD [])
            (if (parseTemplateSections templateContent).body.isEmpty then templateContent
             else (parseTemplateSections templateContent).body))
          (results0, []) := rfl
  obtain ⟨hm, _, hh⟩ := processBatchesFold_spec responses
    ((parseTemplateSections templateContent).subject.getD [])
    ((parseTemplateSections templateContent).toLine.getD [])
    (if (parseTemplateSections templateContent).body.isEmpty then templateContent
     else (parseTemplateSections templateContent).body)
    batches 0 (results0, []) hnodup hpres
  constructor
  · rw [hPBP]
    exact hm
  · intro c hc
    obtain ⟨r, hr, hterm⟩ := hh c hc
    exact ⟨r, by rw [hPBP]; exact hr, hterm⟩

/-- C5: a dispatch run over contacts with pairwise-distinct ids that completes
(the token check passes, so `processContacts` returns instead of throwing)
produces exactly one `ProcessingResult` per input contact: the result list has
length N, its contact-id column equals the input id column (same multiset,
no duplicates, no omissions), and every entry carries a terminal status
(`completed` or `failed`) — for every transport outcome, every `$batch`
response list and every attachment outcome. -/
theorem c5_dispatch_results_complete (responses : Nat → Except String (List BatchResp))
    (attachFails : String → Option String) (hasAttachment : Bool)
    (contacts : List Contact) (templateContent : List Char)
    (hnodup : (contacts.map contactId).Nodup) :
    ∃ finalResults,
      processContacts true responses attachFails hasAttachment contacts
          templateContent = .ok finalResults ∧
      finalResults.length = contacts.length ∧
      finalResults.map (fun r => r.contactId) = contacts.map contactId ∧
      ∀ r ∈ finalResults, terminalStatus r := by
  have hmap0 : (contacts.map (fun c =>
      ({ contactId := contactId c, status := .pending } : ProcessingResult))).map
        (fun r => r.contactId) = contacts.map contactId := by
    rw [List.map_map]
    exact List.map_congr_left (fun c _ => rfl)
  have hflat : (createBatches contacts 20).flatten = contacts :=
    chunkArrayGo_flatten 20 contacts.length contacts
  obtain ⟨hprmapAux, hhit⟩ := processBatchesInParallel_spec responses templateContent
    (createBatches contacts 20)
    (contacts.map (fun c =>
      ({ contactId := contactId c, status := .pending } : ProcessingResult)))
    (by rw [hflat]; exact hnodup)
    (by
      intro c hc
      rw [hflat] at hc
      rw [hmap0]
      exact List.mem_map_of_mem _ hc)
  have hprmap : (processBatchesInParallel responses templateContent
      (createBatches contacts 20)
      (contacts.map (fun c =>
        ({ contactId := contactId c, status := .pending } : ProcessingResult)))).1.map
        (fun r => r.contactId) = contacts.map contactId := hprmapAux.trans hmap0
  have hprterm : ∀ r ∈ (processBatchesInParallel responses templateContent
      (createBatches contacts 20)
      (contacts.map (fun c =>
        ({ contactId := contactId c, status := .pending } : ProcessingResult)))).1,
      terminalStatus r := by
    refine all_terminal_of_hits _ (by rw [hprmap]; exact hnodup) ?_
    intro q hq
    rw [hprmap] at hq
    obtain ⟨c, hc, rfl⟩ := List.mem_map.mp hq
    exact hhit c (by rw [hflat]; exact hc)
  have hPC : processContacts true responses attachFails hasAttachment contacts
      templateContent
      = .ok (if hasAttachment then
          attachFilesToDrafts attachFails
            (processBatchesInParallel responses templateContent
              (createBatches contacts 20)
              (contacts.map (fun c =>
                ({ contactId := contactId c, status := .pending } : ProcessingResult)))).2
            (processBatchesInParallel responses templateContent
              (createBatches contacts 20)
              (contacts.map (fun c =>
                ({ contactId := contactId c, status := .pending } : ProcessingResult)))).1
        else
          (processBatchesInParallel responses templateContent
            (createBatches contacts 20)
            (contacts.map (fun c =>
              ({ contactId := contactId c, status := .pending } : ProcessingResult)))).1) :=
    rfl
  cases hasAttachment with
  | false =>
    refine ⟨_, hPC, ?_, hprmap, hprterm⟩
    have := congrArg List.length hprmap
    simpa using this
  | true =>
    obtain ⟨ham, hat⟩ := attachFilesToDrafts_spec attachFails
      (processBatchesInParallel responses templateContent
        (createBatches contacts 20)
        (contacts.map (fun c =>
          ({ contactId := contactId c, status := .pending } : ProcessingResult)))).2
      (processBatchesInParallel responses templateContent
        (createBatches contacts 20)
        (contacts.map (fun c =>
          ({ contactId := contactId c, status := .pending } : ProcessingResult)))).1
    refine ⟨_, hPC, ?_, ham.trans hprmap, hat hprterm⟩
    have := congrArg List.length (ham.trans hprmap)
    simpa using this

/-- C5, witness: the dispatch guarantee evaluated on two concrete contacts, a
response list that creates Ann's draft and rejects Bob's, and a succeeding
attachment pass. -/
theorem c5_dispatch_results_witness :
    ∃ finalResults,
      processContacts true c5Responses c5AttachFails true c5Contacts
          c5TemplateContent = .ok finalResults ∧
      finalResults.length = c5Contacts.length ∧
      finalResults.map (fun r => r.contactId) = c5Contacts.map contactId ∧
      ∀ r ∈ finalResults, terminalStatus r :=
  c5_dispatch_results_complete c5Responses c5AttachFails true c5Contacts
    c5TemplateContent (by decide)
